import Mathlib

/-!
PT visit tracker: aggregation layer and record store.

A shallow embedding of `src/app.js`: the aggregation functions
(`uniquePatientCounts`, `patientTabletData`, `calculateTabletDays`,
`getRegNumberSuggestions`, `getMonthDatesDetailed`, `lookupStats`), the
formatting of registration numbers (`formatRegNumber`) and the operations on
the record list (`loadDataFromGoogle`, `callGoogleScript`, `handleSubmit`,
`deleteVisit`, `clearAllData`, `toggleCompleted`), together with the properties
proved about them.

Modelling conventions.
* A JavaScript string is a list of characters (`JSString`); `toUpperCase`
  maps the ASCII letters and `trim` strips the ECMAScript white space and
  line terminator characters.
* A valid `Date` is its time value, an integer number of milliseconds since
  the epoch; arithmetic on time values is exact integer arithmetic.
* A plain object used as a dictionary is an insertion-ordered association
  list (`JSObject`); `objectKeys` yields the own keys in the ECMAScript
  order: array-index keys ascending, then the other keys in insertion order.
* A `Set` is a duplicate-free list in insertion order.
-/

namespace PTVisitTracker

/-! ## Strings -/

/-- A JavaScript string, as the list of its characters. -/
abbrev JSString := List Char

/-- `String.prototype.toUpperCase`, on the ASCII letters. -/
def toUpperCase (s : JSString) : JSString := s.map Char.toUpper

/-- The characters `String.prototype.trim` strips: ECMAScript white space and
line terminators. -/
def isJSWhitespace (c : Char) : Bool :=
  let n := c.toNat
  n == 9 || n == 10 || n == 11 || n == 12 || n == 13 || n == 32 || n == 160 ||
  n == 5760 || (8192 ≤ n && n ≤ 8202) || n == 8232 || n == 8233 || n == 8239 ||
  n == 8287 || n == 12288 || n == 65279

/-- `String.prototype.trim`. -/
def trim (s : JSString) : JSString :=
  ((s.dropWhile isJSWhitespace).reverse.dropWhile isJSWhitespace).reverse

/-- `String.prototype.includes`: `t` occurs in `s` as a contiguous substring. -/
def includes (s t : JSString) : Bool := s.tails.any (fun u => t.isPrefixOf u)

/-- `s.slice(-4)`: the last four characters of `s` (all of `s` when shorter). -/
def sliceLast4 (s : JSString) : JSString := s.drop (s.length - 4)

/-- The grouping key of a registration number: `regNumber.trim().toUpperCase()`. -/
def canon (s : JSString) : JSString := toUpperCase (trim s)

/-! ## Sets and plain objects -/

/-- `Set.prototype.add` on a set kept as a duplicate-free list in insertion order. -/
def setAdd {α : Type} [DecidableEq α] (s : List α) (x : α) : List α :=
  if x ∈ s then s else s ++ [x]

/-- A dictionary with keys of type `κ`, in insertion order. -/
abbrev JSObject (κ : Type) (α : Type) := List (κ × α)

/-- Property read `o[k]`; `none` is `undefined`. -/
def JSObject.get? {κ α : Type} [DecidableEq κ] : JSObject κ α → κ → Option α
  | [], _ => none
  | (k', v) :: o, k => if k' = k then some v else JSObject.get? o k

/-- Property write `o[k] = v`: an existing key keeps its position, a new key
is appended. -/
def JSObject.set {κ α : Type} [DecidableEq κ] : JSObject κ α → κ → α → JSObject κ α
  | [], k, v => [(k, v)]
  | (k', v') :: o, k, v =>
      if k' = k then (k', v) :: o else (k', v') :: JSObject.set o k v

/-- The keys in insertion order. -/
def JSObject.insertionKeys {κ α : Type} (o : JSObject κ α) : List κ := o.map Prod.fst

/-- The value of a decimal numeral. -/
def decimalValue (s : JSString) : Nat :=
  s.foldl (fun n c => 10 * n + (c.toNat - 48)) 0

/-- The array index a property key denotes, if it is one: a canonical decimal
numeral (no leading zero) of a value below `2^32 - 1`. -/
def arrayIndex? (s : JSString) : Option Nat :=
  if s ≠ [] ∧ s.all Char.isDigit ∧ (s = ['0'] ∨ s.head? ≠ some '0') ∧
      decimalValue s < 4294967295 then
    some (decimalValue s)
  else none

/-- `Object.keys` of a string-keyed object: array-index keys in ascending
numeric order, then the other keys in insertion order. -/
def objectKeys {α : Type} (o : JSObject JSString α) : List JSString :=
  let ks := JSObject.insertionKeys o
  (ks.filter (fun k => (arrayIndex? k).isSome)).insertionSort
      (fun a b => decimalValue a ≤ decimalValue b)
    ++ ks.filter (fun k => (arrayIndex? k).isNone)

/-! ## Dates -/

/-- Milliseconds in a day, `1000 * 60 * 60 * 24`. -/
def msPerDay : Int := 1000 * 60 * 60 * 24

/-- `Math.ceil(a / b)` for an integer `a` and a positive integer `b`. -/
def ceilDiv (a b : Int) : Int := -((-a) / b)

/-- Days from 1970-01-01 to the civil date `y-m-d` (proleptic Gregorian). -/
def daysFromCivil (y : Int) (m d : Nat) : Int :=
  let y' : Int := if m ≤ 2 then y - 1 else y
  let era : Int := y' / 400
  let yoe : Int := y' - era * 400
  let mp : Int := if m > 2 then (m : Int) - 3 else (m : Int) + 9
  let doy : Int := (153 * mp + 2) / 5 + (d : Int) - 1
  let doe : Int := yoe * 365 + yoe / 4 - yoe / 100 + doy
  era * 146097 + doe - 719468

/-- The zero-based month of the civil date of day number `z`. -/
def monthOfDays (z : Int) : Nat :=
  let z' := z + 719468
  let era := z' / 146097
  let doe := z' - era * 146097
  let yoe := (doe - doe / 1460 + doe / 36524 - doe / 146096) / 365
  let doy := doe - (365 * yoe + yoe / 4 - yoe / 100)
  let mp := (5 * doy + 2) / 153
  (if mp < 10 then mp + 2 else mp - 10).toNat

/-- The time value of `new Date("YYYY-MM-DD")`: midnight UTC of that day. -/
def parseISODate (y : Int) (m d : Nat) : Int := daysFromCivil y m d * msPerDay

/-- The local calendar day a time value falls on, as a day number; `tz` is the
offset of local time from UTC in milliseconds. -/
def localDay (tz : Int) (t : Int) : Int := (t + tz) / msPerDay

/-- `Date.prototype.getMonth` (local time), 0 to 11. -/
def getMonth (tz : Int) (t : Int) : Nat := monthOfDays (localDay tz t)

/-- `Date.prototype.toDateString` (local time). The string names the local
calendar day and nothing else, so the key is that day. -/
def toDateString (tz : Int) (t : Int) : Int := localDay tz t

/-! ## Data model -/

/-- A visit record as held in the `visits` state. -/
structure Visit where
  id : Int
  regNumber : JSString
  visitDate : Int
  nextVisitDate : Int
  tabletDays : Int
  completed : Bool
  completedAt : Option Int
  recordedAt : Option Int
deriving DecidableEq, Repr

/-- The `counts` accumulator of `uniquePatientCounts`: a set of registration
keys overall, per month and per date key. -/
structure CountSets where
  byMonth : JSObject Nat (List JSString)
  byDate : JSObject Int (List JSString)
  total : List JSString
deriving DecidableEq, Repr

/-- The value `uniquePatientCounts` returns: the sizes of the sets. -/
structure PatientCounts where
  byMonth : JSObject Nat Nat
  byDate : JSObject Int Nat
  total : Nat
deriving DecidableEq, Repr

/-- An entry of `patientTabletData`. -/
structure PatientData where
  regNumber : JSString
  totalTabletDays : Int
  visits : List Visit
  firstVisitDate : Int
  lastVisitDate : Int
  lastNextVisitDate : Int
deriving DecidableEq, Repr

/-- A record as parsed from the gateway response or from the local cache,
before `loadDataFromGoogle` rebuilds it; `none` is an absent (or falsy) field. -/
structure RawVisit where
  id : Int
  regNumber : JSString
  visitDate : Option Int
  nextVisitDate : Int
  tabletDays : Option Int
  completed : Bool
  completedAt : Option Int
  recordedAt : Option Int
deriving DecidableEq, Repr

/-- The form fields `handleSubmit` reads. A date field is a date input: empty
(`none`) or a calendar day, given by its day number since 1970-01-01. -/
structure Form where
  regNumber : JSString
  visitDate : Option Int
  nextVisitDate : Option Int
deriving DecidableEq, Repr

/-! ## Aggregation: `uniquePatientCounts` -/

/-- The body of `visits.forEach` in `uniquePatientCounts`. -/
def countVisit (tz : Int) (counts : CountSets) (visit : Visit) : CountSets :=
  let month := getMonth tz visit.nextVisitDate
  let dateKey := toDateString tz visit.nextVisitDate
  let regNum := canon visit.regNumber
  let total := setAdd counts.total regNum
  let byMonth0 :=
    if (counts.byMonth.get? month).isNone then counts.byMonth.set month [] else counts.byMonth
  let byMonth1 :=
    if !visit.completed then
      byMonth0.set month (setAdd ((byMonth0.get? month).getD []) regNum)
    else byMonth0
  let byDate0 :=
    if (counts.byDate.get? dateKey).isNone then counts.byDate.set dateKey [] else counts.byDate
  let byDate1 :=
    if !visit.completed then
      byDate0.set dateKey (setAdd ((byDate0.get? dateKey).getD []) regNum)
    else byDate0
  { byMonth := byMonth1, byDate := byDate1, total := total }

/-- The sets `uniquePatientCounts` has built after its `forEach`. -/
def countSets (tz : Int) (visits : List Visit) : CountSets :=
  visits.foldl (countVisit tz) { byMonth := [], byDate := [], total := [] }

/-- The memoized `uniquePatientCounts` of the record list. -/
def uniquePatientCounts (tz : Int) (visits : List Visit) : PatientCounts :=
  let counts := countSets tz visits
  { byMonth := counts.byMonth.map (fun kv => (kv.1, kv.2.length)),
    byDate := counts.byDate.map (fun kv => (kv.1, kv.2.length)),
    total := counts.total.length }

/-- The count `getUniquePatientsForDate(date)` returns: `byDate[dateKey] || 0`. -/
def getUniquePatientsForDate (tz : Int) (visits : List Visit) (date : Int) : Nat :=
  ((uniquePatientCounts tz visits).byDate.get? (toDateString tz date)).getD 0

/-- The count `getUniquePatientsForMonth(monthIndex)` returns: `byMonth[monthIndex] || 0`. -/
def getUniquePatientsForMonth (tz : Int) (visits : List Visit) (monthIndex : Nat) : Nat :=
  ((uniquePatientCounts tz visits).byMonth.get? monthIndex).getD 0

/-! ## Aggregation: `patientTabletData` -/

/-- The entry `patientTabletData` creates for a key on its first record. -/
def newPatientData (visit : Visit) : PatientData :=
  { regNumber := visit.regNumber, totalTabletDays := 0, visits := [],
    firstVisitDate := visit.visitDate, lastVisitDate := visit.visitDate,
    lastNextVisitDate := visit.nextVisitDate }

/-- The updates `patientTabletData` makes to the entry of a record's key. -/
def accumulate (p : PatientData) (visit : Visit) : PatientData :=
  let p1 := { p with totalTabletDays := p.totalTabletDays + visit.tabletDays,
                     visits := p.visits ++ [visit] }
  let p2 := if visit.visitDate < p1.firstVisitDate then
      { p1 with firstVisitDate := visit.visitDate } else p1
  let p3 := if visit.visitDate > p2.lastVisitDate then
      { p2 with lastVisitDate := visit.visitDate } else p2
  if visit.nextVisitDate > p3.lastNextVisitDate then
    { p3 with lastNextVisitDate := visit.nextVisitDate } else p3

/-- The body of `visits.forEach` in `patientTabletData`: the entry of the
record's key is created if absent, then updated. -/
def addVisit (patientData : JSObject JSString PatientData) (visit : Visit) :
    JSObject JSString PatientData :=
  let regNum := canon visit.regNumber
  let entry := (patientData.get? regNum).getD (newPatientData visit)
  patientData.set regNum (accumulate entry visit)

/-- The `visits.sort((a, b) => new Date(a.visitDate) - new Date(b.visitDate))`
of an entry: a stable sort ascending by visit date. -/
def sortVisits (vs : List Visit) : List Visit :=
  vs.insertionSort (fun a b => a.visitDate ≤ b.visitDate)

/-- The memoized `patientTabletData` of the record list. -/
def patientTabletData (visits : List Visit) : JSObject JSString PatientData :=
  (visits.foldl addVisit []).map
    (fun kv => (kv.1, { kv.2 with visits := sortVisits kv.2.visits }))

/-- The total `getPatientTotalTablets(regNumber)` returns:
`patientTabletData[regNum]?.totalTabletDays || 0`. -/
def getPatientTotalTablets (visits : List Visit) (regNumber : JSString) : Int :=
  match (patientTabletData visits).get? (canon regNumber) with
  | some p => p.totalTabletDays
  | none => 0

/-! ## Tablet days, record creation and loading -/

/-- Tablet days between the two dates, as `calculateTabletDays` computes them. -/
def calculateTabletDays (visitDate nextVisitDate : Int) : Int :=
  let diffTime := nextVisitDate - visitDate
  let diffDays := ceilDiv diffTime msPerDay
  if diffDays > 0 then diffDays else 0

/-- The test `/^\d{4}\/[A-Z]{3}\/\d{4}$/.test(regNumber)`. -/
def regNumberPattern (s : JSString) : Bool :=
  match s with
  | [y1, y2, y3, y4, s1, a1, a2, a3, s2, n1, n2, n3, n4] =>
      y1.isDigit && y2.isDigit && y3.isDigit && y4.isDigit && s1 == '/' &&
      a1.isUpper && a2.isUpper && a3.isUpper && s2 == '/' &&
      n1.isDigit && n2.isDigit && n3.isDigit && n4.isDigit
  | _ => false

/-- The record `handleSubmit` builds from the form when every check passes,
`none` when it returns early; `now` is the reading of `Date.now()` used for
`id` and `recordedAt` the reading of `new Date()`. -/
def newVisit (form : Form) (now recordedAt : Int) : Option Visit :=
  match form.visitDate, form.nextVisitDate with
  | some visitDay, some nextDay =>
      if form.regNumber = [] then none
      else if !regNumberPattern form.regNumber then none
      else
        let visit := visitDay * msPerDay
        let nextVisit := nextDay * msPerDay
        if nextVisit ≤ visit then none
        else
          some { id := now, regNumber := trim form.regNumber, visitDate := visit,
                 nextVisitDate := nextVisit,
                 tabletDays := calculateTabletDays visit nextVisit,
                 completed := false, completedAt := none, recordedAt := some recordedAt }
  | _, _ => none

/-- The record `loadDataFromGoogle` builds from a parsed one: the dates are
rebuilt, a missing visit date falls back to `recordedAt || nextVisitDate`, and
`tabletDays` is `visit.tabletDays || 0`. -/
def loadVisit (visit : RawVisit) : Visit :=
  { id := visit.id, regNumber := visit.regNumber,
    visitDate := match visit.visitDate with
      | some d => d
      | none => visit.recordedAt.getD visit.nextVisitDate,
    nextVisitDate := visit.nextVisitDate,
    tabletDays := visit.tabletDays.getD 0,
    completed := visit.completed, completedAt := visit.completedAt,
    recordedAt := visit.recordedAt }

/-- The record list `loadDataFromGoogle` stores: `visits.map(visit => ...)`. -/
def loadVisits (raw : List RawVisit) : List Visit := raw.map loadVisit

/-! ## Suggestions -/

/-- The filter predicate of `getRegNumberSuggestions` on a key. -/
def suggestionMatch (search regNum : JSString) : Bool :=
  let upper := toUpperCase regNum
  let last4 := sliceLast4 regNum
  includes upper search || includes last4 search

/-- The suggestions `getRegNumberSuggestions(searchTerm)` returns over the
rollup object `patientData`. -/
def getRegNumberSuggestions {α : Type} (patientData : JSObject JSString α)
    (searchTerm : JSString) : List JSString :=
  if searchTerm = [] then []
  else
    let search := trim (toUpperCase searchTerm)
    let allRegNumbers := objectKeys patientData
    (allRegNumbers.filter (suggestionMatch search)).take 10

/-! ## Visit Record Store -/

/-- A request sent to the gateway: the four `POST` actions with their payload
and the `GET` of `getAllVisits`. -/
inductive Request where
  | addVisit (visit : Visit)
  | updateVisit (visit : Visit)
  | deleteVisit (id : Int)
  | clearAllData
  | getAllVisits
deriving DecidableEq, Repr

/-- What a `fetch` of the gateway yields: an exception (`failure`), a response
without `success` (`refused`), or a response with `success` and possibly a
`visits` array. -/
inductive Reply where
  | failure
  | refused
  | ok (visits : Option (List RawVisit))
deriving DecidableEq, Repr

/-- The replies of the gateway during one operation: to the `POST` of
`callGoogleScript` and to the `getAllVisits` re-fetch that follows a success. -/
structure Gateway where
  post : Reply
  refetch : Reply
deriving DecidableEq, Repr

/-- The state the store operations read and write: the `visits` state, the
`ptVisits` entry of `localStorage` (`none` when the key is absent), the
`googleScriptUrl` state, and the gateway requests issued so far, oldest first. -/
structure Store where
  visits : List Visit
  cache : Option (List RawVisit)
  googleScriptUrl : JSString
  requests : List Request
deriving DecidableEq, Repr

/-- A record as `JSON.stringify` writes it and `JSON.parse` reads it back. -/
def serialize (visit : Visit) : RawVisit :=
  { id := visit.id, regNumber := visit.regNumber, visitDate := some visit.visitDate,
    nextVisitDate := visit.nextVisitDate, tabletDays := some visit.tabletDays,
    completed := visit.completed, completedAt := visit.completedAt,
    recordedAt := visit.recordedAt }

/-- The store after `loadDataFromGoogle`, `reply` being what the `getAllVisits`
fetch yields. Without a gateway URL the cached list is loaded; otherwise a
successful reply with `visits` replaces the list and the cache, and an
exception falls back to the cached list. -/
def loadDataFromGoogle (s : Store) (reply : Reply) : Store :=
  if s.googleScriptUrl = [] then
    match s.cache with
    | some savedVisits => { s with visits := loadVisits savedVisits }
    | none => s
  else
    let s1 := { s with requests := s.requests ++ [Request.getAllVisits] }
    match reply with
    | Reply.ok (some visits) =>
        { s1 with visits := loadVisits visits,
                  cache := some ((loadVisits visits).map serialize) }
    | Reply.ok none => s1
    | Reply.refused => s1
    | Reply.failure =>
        match s1.cache with
        | some savedVisits => { s1 with visits := loadVisits savedVisits }
        | none => s1

/-- The store after `callGoogleScript(action, data)` and whether the returned
result has `success`. Without a gateway URL nothing is sent and `null` is
returned; a successful reply is followed by `loadDataFromGoogle`. -/
def callGoogleScript (s : Store) (request : Request) (gw : Gateway) : Store × Bool :=
  if s.googleScriptUrl = [] then (s, false)
  else
    let s1 := { s with requests := s.requests ++ [request] }
    match gw.post with
    | Reply.ok _ => (loadDataFromGoogle s1 gw.refetch, true)
    | Reply.refused => (s1, false)
    | Reply.failure => (s1, false)

/-- The store after `handleSubmit`. A rejected form changes nothing; an accepted
one is sent to the gateway and, unless the gateway reports success, added
locally in front of the record list of the render and written to the cache. -/
def handleSubmit (s : Store) (form : Form) (now recordedAt : Int) (gw : Gateway) : Store :=
  match newVisit form now recordedAt with
  | none => s
  | some visit =>
      let r := callGoogleScript s (Request.addVisit visit) gw
      if r.2 then r.1
      else
        let updatedVisits := visit :: s.visits
        { r.1 with visits := updatedVisits, cache := some (updatedVisits.map serialize) }

/-- The store after `deleteVisit(id)`; `confirmed` is the answer to `confirm`.
The list of the render is filtered, stored and cached; the cache entry is
removed when the filtered list is empty. -/
def deleteVisit (s : Store) (id : Int) (confirmed : Bool) (gw : Gateway) : Store :=
  if confirmed then
    let r := callGoogleScript s (Request.deleteVisit id) gw
    let updatedVisits := s.visits.filter (fun v => v.id ≠ id)
    { r.1 with visits := updatedVisits,
               cache := if updatedVisits.length = 0 then none
                        else some (updatedVisits.map serialize) }
  else s

/-- The store after `clearAllData`; `confirmed1` and `confirmed2` are the
answers to its two `confirm` dialogs. -/
def clearAllData (s : Store) (confirmed1 confirmed2 : Bool) (gw : Gateway) : Store :=
  if confirmed1 then
    if confirmed2 then
      let r := callGoogleScript s Request.clearAllData gw
      { r.1 with visits := [], cache := none }
    else s
  else s

/-- The record `toggleCompleted` builds from the one it found; `now` is the
reading of `new Date()`. -/
def toggledVisit (visit : Visit) (now : Int) : Visit :=
  { visit with completed := !visit.completed,
               completedAt := if !visit.completed then some now else none }

/-- The store after `toggleCompleted(id)`. When a record with the id is found,
the toggled copy is sent to the gateway and put in the place of every record
of the render's list that has the id; otherwise nothing happens. -/
def toggleCompleted (s : Store) (id : Int) (now : Int) (gw : Gateway) : Store :=
  match s.visits.find? (fun v => v.id = id) with
  | some visit =>
      let updatedVisit := toggledVisit visit now
      let r := callGoogleScript s (Request.updateVisit updatedVisit) gw
      let updatedVisits := s.visits.map (fun v => if v.id = id then updatedVisit else v)
      { r.1 with visits := updatedVisits, cache := some (updatedVisits.map serialize) }
  | none => s

/-! ## Registration number formatting -/

/-- The part of `formatRegNumber` after the cleaning: the first four characters,
then, if there are more than four, a slash and the next three uppercased, then,
if there are more than seven, a slash and the next four. -/
def formatCleaned (cleaned : JSString) : JSString :=
  let formatted0 : JSString := if cleaned.length > 0 then cleaned.take 4 else []
  let formatted1 :=
    if cleaned.length > 4 then
      formatted0 ++ '/' :: toUpperCase ((cleaned.drop 4).take 3)
    else formatted0
  if cleaned.length > 7 then formatted1 ++ '/' :: (cleaned.drop 7).take 4 else formatted1

/-- The string `formatRegNumber(value)` returns; the cleaning
`value.replace(/[^a-zA-Z0-9]/g, '')` keeps the ASCII letters and digits. -/
def formatRegNumber (value : JSString) : JSString :=
  formatCleaned (value.filter Char.isAlphanum)

/-! ## Month view, lookup statistics and patient history -/

/-- The day of the month (1 to 31) of the civil date of day number `z`. -/
def dateOfDays (z : Int) : Nat :=
  let z' := z + 719468
  let era := z' / 146097
  let doe := z' - era * 146097
  let yoe := (doe - doe / 1460 + doe / 36524 - doe / 146096) / 365
  let doy := doe - (365 * yoe + yoe / 4 - yoe / 100)
  let mp := (5 * doy + 2) / 153
  (doy - (153 * mp + 2) / 5 + 1).toNat

/-- The day number of `new Date(year, monthIndex, day)`: the month index may
lie outside 0 to 11 and the day outside the month, both carry over. -/
def makeDay (year : Int) (monthIndex : Int) (day : Int) : Int :=
  daysFromCivil (year + monthIndex / 12) ((monthIndex % 12).toNat + 1) 1 + (day - 1)

/-- The time value of `new Date(year, monthIndex, day)`: local midnight of
that day. -/
def newLocalDate (tz : Int) (year : Int) (monthIndex : Int) (day : Int) : Int :=
  makeDay year monthIndex day * msPerDay - tz

/-- The time value after `setHours(0, 0, 0, 0)`: local midnight of the day. -/
def setHoursZero (tz : Int) (t : Int) : Int := localDay tz t * msPerDay - tz

/-- `Date.prototype.getDate` (local time). -/
def getDate (tz : Int) (t : Int) : Nat := dateOfDays (localDay tz t)

/-- A day descriptor of `getMonthDatesDetailed`, with the fields that carry
data of the record list: the date, the day number, the count of distinct
pending patients and the pending records of the day. The fields `dayName`,
`holiday`, `isToday` and `isSunday` depend on the date alone. -/
structure DayDescriptor where
  date : Int
  day : Nat
  count : Nat
  patients : List Visit
deriving DecidableEq, Repr

/-- The descriptors `getMonthDatesDetailed(monthIndex)` returns, `year` being
the current year: one for each day from 1 to the date of the last day of the
month. -/
def getMonthDatesDetailed (tz : Int) (year : Int) (visits : List Visit) (monthIndex : Nat) :
    List DayDescriptor :=
  let lastDay := newLocalDate tz year ((monthIndex : Int) + 1) 0
  (List.range (getDate tz lastDay)).map (fun i =>
    let day : Nat := i + 1
    let date := setHoursZero tz (newLocalDate tz year (monthIndex : Int) ((day : Nat) : Int))
    let patientsForDate := visits.filter (fun visit =>
      decide (setHoursZero tz visit.nextVisitDate = date) && !visit.completed)
    let uniquePatients :=
      (patientsForDate.map (fun v => canon v.regNumber)).foldl setAdd []
    { date := date, day := day, count := uniquePatients.length, patients := patientsForDate })

/-- The value of `lookupStats`. -/
structure LookupStats where
  totalEntries : Nat
  uniquePatients : Nat
deriving DecidableEq, Repr

/-- The memoized `lookupStats` of the record list. -/
def lookupStats (visits : List Visit) : LookupStats :=
  let uniquePatients := (visits.map (fun v => canon v.regNumber)).foldl setAdd []
  { totalEntries := visits.length, uniquePatients := uniquePatients.length }

/-- The patient `openPatientHistory(regNumber)` selects, `none` when it finds
no rollup and does nothing. -/
def openPatientHistory (visits : List Visit) (regNumber : JSString) : Option PatientData :=
  (patientTabletData visits).get? (canon regNumber)

/-- The store after the `Delete All` button of a patient, every confirmation
accepted: `deleteVisit(visit.id)` for each visit of the rollup. Every call is
made from the same render, so each filters the record list of that render; the
calls are taken to finish in the order they were started, the cache and the
request log passing from one to the next. -/
def deleteAllVisits (s : Store) (patient : PatientData) (gw : Gateway) : Store :=
  patient.visits.foldl
    (fun acc visit => deleteVisit { acc with visits := s.visits } visit.id true gw) s

/-! ## Per-key views of the two folds -/

/-- The update `countVisit` makes to one of its two bucket objects, the bucket
key of a record being `key`. -/
def bucketStep {κ : Type} [DecidableEq κ] (key : Visit → κ)
    (o : JSObject κ (List JSString)) (visit : Visit) : JSObject κ (List JSString) :=
  let o0 := if (o.get? (key visit)).isNone then o.set (key visit) [] else o
  if !visit.completed then
    o0.set (key visit) (setAdd ((o0.get? (key visit)).getD []) (canon visit.regNumber))
  else o0

/-- The effect of `addVisit` on the entry of one key, for a record of that key:
`none` is the absent entry. -/
def rollupStep (o : Option PatientData) (visit : Visit) : Option PatientData :=
  some (accumulate (o.getD (newPatientData visit)) visit)

/-! ## Specification-side notions -/

/-- The distinct elements of a list in the order of their first appearance. -/
def firstAppearances {α : Type} [DecidableEq α] : List α → List α
  | [] => []
  | x :: xs => x :: (firstAppearances xs).filter (fun y => y ≠ x)

/-- The records of the list that belong to the patient with canonical key `k`. -/
def recordsOf (k : JSString) (visits : List Visit) : List Visit :=
  visits.filter (fun v => canon v.regNumber = k)

/-- The match rule of the suggestion matcher as the specification words it:
the key contains the query, or its last four characters do. -/
def matchRule (query k : JSString) : Prop :=
  query <:+: k ∨ query <:+: k.drop (k.length - 4)

/-- The number of distinct canonicalized registration numbers among records. -/
def distinctPatients (visits : List Visit) : Nat :=
  (visits.map (fun v => canon v.regNumber)).toFinset.card

/-- The pending records whose next visit falls on the local calendar day of `d`. -/
def pendingOnDay (tz : Int) (d : Int) (visits : List Visit) : List Visit :=
  visits.filter (fun v => !v.completed && decide (localDay tz v.nextVisitDate = localDay tz d))

/-- The pending records whose next visit has month index `m`. -/
def pendingInMonth (tz : Int) (m : Nat) (visits : List Visit) : List Visit :=
  visits.filter (fun v => !v.completed && decide (getMonth tz v.nextVisitDate = m))


/-! ## Sample data -/

/-- A record with the given id, registration number, dates and completion flag,
its tablet days computed as on submission. -/
def sampleVisit (id : Int) (regNumber : String) (visitDate nextVisitDate : Int)
    (completed : Bool) : Visit :=
  { id := id, regNumber := regNumber.toList, visitDate := visitDate,
    nextVisitDate := nextVisitDate,
    tabletDays := calculateTabletDays visitDate nextVisitDate,
    completed := completed, completedAt := none, recordedAt := none }

/-- Two patients: the first with two visits (the later one listed first, and
entered in lower case with a leading blank), the second with one. -/
def sampleVisits : List Visit :=
  [ sampleVisit 2 " 2026/abc/0001" (parseISODate 2026 3 1) (parseISODate 2026 5 1) false,
    sampleVisit 1 "2026/ABC/0001" (parseISODate 2026 1 1) (parseISODate 2026 3 1) true,
    sampleVisit 3 "2025/XYZ/0042" (parseISODate 2026 1 5) (parseISODate 2026 2 15) false ]

/-- A record as an older version of the application cached it: no visit date
and no tablet days, next visit ten days after it was recorded. -/
def legacyRawVisit : RawVisit :=
  { id := 7, regNumber := "2026/ABC/0001".toList, visitDate := none,
    nextVisitDate := parseISODate 2026 1 11, tabletDays := none, completed := false,
    completedAt := none, recordedAt := some (parseISODate 2026 1 1) }

/-- A filled-in form: 2026-01-01 (day 20454) to 2026-03-01 (day 20513). -/
def sampleForm : Form :=
  { regNumber := "2026/ABC/0001".toList, visitDate := some 20454, nextVisitDate := some 20513 }

instance matchRule.instDecidable (query k : JSString) : Decidable (matchRule query k) := by
  unfold matchRule
  infer_instance

/-- The suggestions as the specification words them: the first 10 distinct
canonicalized registration numbers of the record list, in order of first
appearance, that satisfy the match rule for the uppercased, trimmed query. -/
def firstMatches (visits : List Visit) (query : JSString) : List JSString :=
  ((firstAppearances (visits.map (fun v => canon v.regNumber))).filter
    (fun k => decide (matchRule (trim (toUpperCase query)) k))).take 10

/-- Two records whose registration numbers are decimal numerals, the larger
numeral first. -/
def numericVisits : List Visit :=
  [ sampleVisit 1 "10" (parseISODate 2026 1 1) (parseISODate 2026 1 8) false,
    sampleVisit 2 "1" (parseISODate 2026 1 2) (parseISODate 2026 1 9) false ]

/-- The record `handleSubmit` builds from `sampleForm` at the clock readings 99
and 100. -/
def sampleSubmitted : Visit :=
  { id := 99, regNumber := "2026/ABC/0001".toList, visitDate := 20454 * msPerDay,
    nextVisitDate := 20513 * msPerDay, tabletDays := 59, completed := false,
    completedAt := none, recordedAt := some 100 }

/-- Eleven patients whose registration numbers all end in "0001". -/
def elevenVisits : List Visit :=
  ["2026/AAA/0001", "2026/AAB/0001", "2026/AAC/0001", "2026/AAD/0001", "2026/AAE/0001",
   "2026/AAF/0001", "2026/AAG/0001", "2026/AAH/0001", "2026/AAI/0001", "2026/AAJ/0001",
   "2026/AAK/0001"].map
    (fun r => sampleVisit 1 r (parseISODate 2026 1 1) (parseISODate 2026 1 8) false)

/-- A store holding the sample records, with a gateway URL and an empty
request log. -/
def sampleStore : Store :=
  { visits := sampleVisits, cache := none, googleScriptUrl := "https://gw".toList,
    requests := [] }

/-- A gateway that cannot be reached. -/
def unreachable : Gateway := { post := Reply.failure, refetch := Reply.failure }

/-- A form whose next-visit date equals its visit date. -/
def zeroLengthForm : Form :=
  { regNumber := "2026/ABC/0001".toList, visitDate := some 20454, nextVisitDate := some 20454 }

/-- The predicate of the data model on a record: `completedAt` is non-null
exactly when `completed` is true. -/
def completedAtIff (v : Visit) : Prop := v.completedAt ≠ none ↔ v.completed = true

instance completedAtIff.instDecidable (v : Visit) : Decidable (completedAtIff v) := by
  unfold completedAtIff
  infer_instance

/-- A completed record, completed at time 5. -/
def completedVisit : Visit :=
  { sampleVisit 1 "2026/ABC/0001" (parseISODate 2026 1 1) (parseISODate 2026 3 1) true with
    completedAt := some 5 }

/-- A store holding only `completedVisit`. -/
def completedStore : Store :=
  { visits := [completedVisit], cache := none, googleScriptUrl := "https://gw".toList,
    requests := [] }

/-- A gateway record marked completed that carries no completion time. -/
def inconsistentRaw : RawVisit :=
  { id := 8, regNumber := "2026/ABC/0001".toList, visitDate := some (parseISODate 2026 1 1),
    nextVisitDate := parseISODate 2026 3 1, tabletDays := some 59, completed := true,
    completedAt := none, recordedAt := some (parseISODate 2026 1 1) }

/-- A store without records, connected to a gateway. -/
def emptyStore : Store :=
  { visits := [], cache := none, googleScriptUrl := "https://gw".toList, requests := [] }

/-- A store without gateway URL that holds the record `sampleSubmitted`, whose
id is 99. -/
def offlineStore : Store :=
  { visits := [sampleSubmitted], cache := none, googleScriptUrl := [], requests := [] }

/-- A gateway that accepts the request and answers the re-fetch with the given
records. -/
def acceptingWith (visits : List RawVisit) : Gateway :=
  { post := Reply.ok none, refetch := Reply.ok (some visits) }

/-- The pending record of the second patient of `sampleVisits`. -/
def pendingSampleVisit : Visit :=
  sampleVisit 3 "2025/XYZ/0042" (parseISODate 2026 1 5) (parseISODate 2026 2 15) false

/-- Two gateway records with the same id. -/
def duplicateRaws : List RawVisit := [serialize sampleSubmitted, serialize sampleSubmitted]

/-- The number of visits the rollup of key `k` lists, 0 when there is none. -/
def rollupVisitCount (visits : List Visit) (k : JSString) : Nat :=
  match (patientTabletData visits).get? k with
  | some p => p.visits.length
  | none => 0

/-- A store without gateway URL holding the first visit of the patient of
`secondForm`: 2026-01-01 to 2026-03-01, 59 tablet days. -/
def firstVisitStore : Store :=
  { visits := [sampleSubmitted], cache := none, googleScriptUrl := [], requests := [] }

/-- The form of the second visit: 2026-03-01 (day 20513) to 2026-05-01
(day 20574). -/
def secondForm : Form :=
  { regNumber := "2026/ABC/0001".toList, visitDate := some 20513, nextVisitDate := some 20574 }

/-- The record `handleSubmit` builds from `secondForm` at the clock readings 101
and 102. -/
def secondSubmitted : Visit :=
  { id := 101, regNumber := "2026/ABC/0001".toList, visitDate := 20513 * msPerDay,
    nextVisitDate := 20574 * msPerDay, tabletDays := 61, completed := false,
    completedAt := none, recordedAt := some 102 }

/-- The rollup of the first patient of the sample records. -/
def sampleRollup : PatientData :=
  ((patientTabletData sampleVisits).get? "2026/ABC/0001".toList).getD
    (newPatientData pendingSampleVisit)

/-- The number of visits listed over all rollups of an object. -/
def totalVisitsListed (o : JSObject JSString PatientData) : Nat :=
  (o.map (fun kv => kv.2.visits.length)).sum

/-- The first segment of a formatted registration number: the characters
before the first slash. -/
def firstSegment (s : JSString) : JSString := s.takeWhile (fun c => c ≠ '/')

/-- The matcher that keeps only the keys containing the uppercased, trimmed
query as a substring, with the guard and the limit of `getRegNumberSuggestions`. -/
def substringSuggestions {α : Type} (patientData : JSObject JSString α)
    (searchTerm : JSString) : List JSString :=
  if searchTerm = [] then []
  else
    ((objectKeys patientData).filter
      (fun k => decide (trim (toUpperCase searchTerm) <:+: k))).take 10

/-- The sample records in a store without gateway URL. -/
def offlineSampleStore : Store :=
  { visits := sampleVisits, cache := none, googleScriptUrl := [], requests := [] }

/-- The records the month view lists over all its day descriptors. -/
def monthViewPatients (tz : Int) (year : Int) (visits : List Visit) (monthIndex : Nat) :
    List Visit :=
  (getMonthDatesDetailed tz year visits monthIndex).flatMap (fun d => d.patients)

/-- One pending record whose next visit is on 15 February 2027. -/
def nextYearVisits : List Visit :=
  [ sampleVisit 1 "2026/ABC/0001" (parseISODate 2027 1 5) (parseISODate 2027 2 15) false ]

/-! ## Lemmas on sets and objects -/

theorem setAdd_nodup {α : Type} [DecidableEq α] (s : List α) (x : α) (h : s.Nodup) :
    (setAdd s x).Nodup := by
  unfold setAdd
  split_ifs with hx
  · exact h
  · exact List.Nodup.append h (List.nodup_singleton x) (by simpa using hx)

theorem mem_setAdd {α : Type} [DecidableEq α] (s : List α) (x y : α) :
    y ∈ setAdd s x ↔ y ∈ s ∨ y = x := by
  unfold setAdd
  split_ifs with hx
  · constructor
    · exact fun h => Or.inl h
    · rintro (h | rfl)
      · exact h
      · exact hx
  · simp

theorem foldl_setAdd_nodup {α : Type} [DecidableEq α] (l s : List α) (h : s.Nodup) :
    (l.foldl setAdd s).Nodup := by
  induction l generalizing s with
  | nil => exact h
  | cons x l ih => exact ih _ (setAdd_nodup s x h)

theorem mem_foldl_setAdd {α : Type} [DecidableEq α] (l s : List α) (y : α) :
    y ∈ l.foldl setAdd s ↔ y ∈ s ∨ y ∈ l := by
  induction l generalizing s with
  | nil => simp
  | cons x l ih =>
    rw [List.foldl_cons, ih, mem_setAdd, List.mem_cons]
    tauto

theorem length_foldl_setAdd {α : Type} [DecidableEq α] (l : List α) :
    (l.foldl setAdd []).length = l.toFinset.card := by
  rw [← List.toFinset_card_of_nodup (foldl_setAdd_nodup l [] List.nodup_nil)]
  congr 1
  ext y
  simp [mem_foldl_setAdd]

theorem get?_set {κ α : Type} [DecidableEq κ] (o : JSObject κ α) (k k' : κ) (v : α) :
    (o.set k v).get? k' = if k = k' then some v else o.get? k' := by
  induction o with
  | nil => simp [JSObject.set, JSObject.get?]
  | cons e o ih =>
    obtain ⟨k0, v0⟩ := e
    by_cases h0 : k0 = k
    · subst h0
      by_cases h1 : k0 = k' <;> simp [JSObject.set, JSObject.get?, h1]
    · by_cases h1 : k0 = k'
      · subst h1
        have h2 : ¬ k = k0 := fun h => h0 h.symm
        simp [JSObject.set, JSObject.get?, h0, h2]
      · simp [JSObject.set, JSObject.get?, h0, h1, ih]

theorem get?_map {κ α β : Type} [DecidableEq κ] (o : JSObject κ α) (f : α → β) (k : κ) :
    JSObject.get? (o.map (fun kv => (kv.1, f kv.2))) k = (o.get? k).map f := by
  induction o with
  | nil => rfl
  | cons e o ih =>
    obtain ⟨k0, v0⟩ := e
    by_cases h : k0 = k <;> simp [JSObject.get?, h, ih]

/-! ## `uniquePatientCounts` -/

theorem countVisit_byMonth (tz : Int) (c : CountSets) (v : Visit) :
    (countVisit tz c v).byMonth = bucketStep (fun v => getMonth tz v.nextVisitDate) c.byMonth v :=
  rfl

theorem countVisit_byDate (tz : Int) (c : CountSets) (v : Visit) :
    (countVisit tz c v).byDate = bucketStep (fun v => toDateString tz v.nextVisitDate) c.byDate v :=
  rfl

theorem countVisit_total (tz : Int) (c : CountSets) (v : Visit) :
    (countVisit tz c v).total = setAdd c.total (canon v.regNumber) :=
  rfl

theorem foldl_countVisit_total (tz : Int) (vs : List Visit) (c : CountSets) :
    (vs.foldl (countVisit tz) c).total
      = (vs.map (fun v => canon v.regNumber)).foldl setAdd c.total := by
  induction vs generalizing c with
  | nil => rfl
  | cons v vs ih => simp [List.foldl_cons, ih, countVisit_total]

theorem foldl_countVisit_byMonth (tz : Int) (vs : List Visit) (c : CountSets) :
    (vs.foldl (countVisit tz) c).byMonth
      = vs.foldl (bucketStep (fun v => getMonth tz v.nextVisitDate)) c.byMonth := by
  induction vs generalizing c with
  | nil => rfl
  | cons v vs ih => simp [List.foldl_cons, ih, countVisit_byMonth]

theorem foldl_countVisit_byDate (tz : Int) (vs : List Visit) (c : CountSets) :
    (vs.foldl (countVisit tz) c).byDate
      = vs.foldl (bucketStep (fun v => toDateString tz v.nextVisitDate)) c.byDate := by
  induction vs generalizing c with
  | nil => rfl
  | cons v vs ih => simp [List.foldl_cons, ih, countVisit_byDate]

theorem bucketStep_get? {κ : Type} [DecidableEq κ] (key : Visit → κ)
    (o : JSObject κ (List JSString)) (v : Visit) (d : κ) :
    ((bucketStep key o v).get? d).getD []
      = if (!v.completed && decide (key v = d)) = true then
          setAdd ((o.get? d).getD []) (canon v.regNumber)
        else (o.get? d).getD [] := by
  unfold bucketStep
  by_cases hk : key v = d
  · subst hk
    cases hc : v.completed <;> cases ho : o.get? (key v) <;> simp [get?_set, ho]
  · cases hc : v.completed <;> cases ho : o.get? (key v) <;> simp [get?_set, ho, hk]

theorem foldl_bucketStep_get? {κ : Type} [DecidableEq κ] (key : Visit → κ)
    (vs : List Visit) (o : JSObject κ (List JSString)) (d : κ) :
    ((vs.foldl (bucketStep key) o).get? d).getD []
      = ((vs.filter (fun v => !v.completed && decide (key v = d))).map
            (fun v => canon v.regNumber)).foldl setAdd ((o.get? d).getD []) := by
  induction vs generalizing o with
  | nil => rfl
  | cons v vs ih =>
    rw [List.foldl_cons, ih, bucketStep_get?, List.filter_cons]
    split_ifs <;> rfl

theorem get?_sizes {κ : Type} [DecidableEq κ] (o : JSObject κ (List JSString)) (d : κ) :
    (JSObject.get? (o.map (fun kv => (kv.1, kv.2.length))) d).getD 0
      = ((o.get? d).getD []).length := by
  rw [get?_map]
  cases o.get? d <;> rfl

theorem uniquePatientCounts_total_eq (tz : Int) (visits : List Visit) :
    (uniquePatientCounts tz visits).total = distinctPatients visits := by
  show (countSets tz visits).total.length = _
  unfold countSets
  rw [foldl_countVisit_total, length_foldl_setAdd]
  rfl

theorem getUniquePatientsForDate_eq (tz : Int) (visits : List Visit) (d : Int) :
    getUniquePatientsForDate tz visits d = distinctPatients (pendingOnDay tz d visits) := by
  unfold getUniquePatientsForDate uniquePatientCounts countSets
  simp only []
  rw [get?_sizes, foldl_countVisit_byDate, foldl_bucketStep_get?]
  simp only [JSObject.get?, Option.getD_none]
  rw [length_foldl_setAdd]
  rfl

theorem getUniquePatientsForMonth_eq (tz : Int) (visits : List Visit) (m : Nat) :
    getUniquePatientsForMonth tz visits m = distinctPatients (pendingInMonth tz m visits) := by
  unfold getUniquePatientsForMonth uniquePatientCounts countSets
  simp only []
  rw [get?_sizes, foldl_countVisit_byMonth, foldl_bucketStep_get?]
  simp only [JSObject.get?, Option.getD_none]
  rw [length_foldl_setAdd]
  rfl

/-- C1: for every record list, `uniquePatientCounts.total` is the number of
distinct canonicalized (trimmed, uppercased) registration numbers over all the
records, completed or not. -/
theorem total_eq_distinctPatients (tz : Int) (visits : List Visit) :
    (uniquePatientCounts tz visits).total = distinctPatients visits :=
  uniquePatientCounts_total_eq tz visits

/-- C2: for every record list, date `d` and month index `m`,
`getUniquePatientsForDate(d)` is the number of distinct canonicalized
registration numbers among the pending records whose next visit falls on the
calendar day of `d`, and `getUniquePatientsForMonth(m)` is that number among the
pending records whose next visit has month index `m`; completed records do not
contribute (dropping them changes no count) and a bucket without pending record
counts 0. -/
theorem bucket_counts_eq_pending (tz : Int) (visits : List Visit) (d : Int) (m : Nat) :
    getUniquePatientsForDate tz visits d = distinctPatients (pendingOnDay tz d visits) ∧
    getUniquePatientsForMonth tz visits m = distinctPatients (pendingInMonth tz m visits) ∧
    getUniquePatientsForDate tz visits d
      = getUniquePatientsForDate tz (visits.filter (fun v => !v.completed)) d ∧
    getUniquePatientsForMonth tz visits m
      = getUniquePatientsForMonth tz (visits.filter (fun v => !v.completed)) m ∧
    (pendingOnDay tz d visits ≠ [] ∨ getUniquePatientsForDate tz visits d = 0) ∧
    (pendingInMonth tz m visits ≠ [] ∨ getUniquePatientsForMonth tz visits m = 0) := by
  have hd : ∀ vs : List Visit,
      getUniquePatientsForDate tz vs d = distinctPatients (pendingOnDay tz d vs) :=
    fun vs => getUniquePatientsForDate_eq tz vs d
  have hm : ∀ vs : List Visit,
      getUniquePatientsForMonth tz vs m = distinctPatients (pendingInMonth tz m vs) :=
    fun vs => getUniquePatientsForMonth_eq tz vs m
  have hfd : pendingOnDay tz d (visits.filter (fun v => !v.completed))
      = pendingOnDay tz d visits := by
    unfold pendingOnDay
    rw [List.filter_filter]
    congr 1
    funext v
    cases v.completed <;> simp
  have hfm : pendingInMonth tz m (visits.filter (fun v => !v.completed))
      = pendingInMonth tz m visits := by
    unfold pendingInMonth
    rw [List.filter_filter]
    congr 1
    funext v
    cases v.completed <;> simp
  have hzero : ∀ l : List Visit, l ≠ [] ∨ distinctPatients l = 0 := by
    intro l
    cases l with
    | nil => exact Or.inr rfl
    | cons v l => exact Or.inl (List.cons_ne_nil v l)
  refine ⟨hd visits, hm visits, ?_, ?_, ?_, ?_⟩
  · rw [hd, hd, hfd]
  · rw [hm, hm, hfm]
  · rw [hd]; exact hzero _
  · rw [hm]; exact hzero _

/-! ## `patientTabletData` -/

theorem addVisit_get? (pd : JSObject JSString PatientData) (v : Visit) (k : JSString) :
    (addVisit pd v).get? k
      = if canon v.regNumber = k then rollupStep (pd.get? k) v else pd.get? k := by
  unfold addVisit rollupStep
  simp only [get?_set]
  split_ifs with h
  · subst h; rfl
  · rfl

theorem foldl_addVisit_get? (vs : List Visit) (pd : JSObject JSString PatientData)
    (k : JSString) :
    (vs.foldl addVisit pd).get? k = (recordsOf k vs).foldl rollupStep (pd.get? k) := by
  induction vs generalizing pd with
  | nil => rfl
  | cons v vs ih =>
    rw [List.foldl_cons, ih, addVisit_get?]
    unfold recordsOf
    rw [List.filter_cons]
    by_cases h : canon v.regNumber = k
    · simp [h]
    · simp [h]

theorem foldl_rollupStep_some (g : List Visit) (p : PatientData) :
    g.foldl rollupStep (some p) = some (g.foldl accumulate p) := by
  induction g generalizing p with
  | nil => rfl
  | cons v g ih => exact ih _

theorem accumulate_totalTabletDays (p : PatientData) (v : Visit) :
    (accumulate p v).totalTabletDays = p.totalTabletDays + v.tabletDays := by
  unfold accumulate
  simp only []
  split_ifs <;> rfl

theorem accumulate_visits (p : PatientData) (v : Visit) :
    (accumulate p v).visits = p.visits ++ [v] := by
  unfold accumulate
  simp only []
  split_ifs <;> rfl

theorem accumulate_regNumber (p : PatientData) (v : Visit) :
    (accumulate p v).regNumber = p.regNumber := by
  unfold accumulate
  simp only []
  split_ifs <;> rfl

theorem accumulate_firstVisitDate (p : PatientData) (v : Visit) :
    (accumulate p v).firstVisitDate = min p.firstVisitDate v.visitDate := by
  unfold accumulate
  simp only []
  split_ifs with h1 h2 h3 h3 h2 h3 h3 <;> simp only [] <;> omega

theorem accumulate_lastVisitDate (p : PatientData) (v : Visit) :
    (accumulate p v).lastVisitDate = max p.lastVisitDate v.visitDate := by
  unfold accumulate
  simp only []
  split_ifs with h1 h2 h3 h3 h2 h3 h3 <;> simp only [] at * <;> omega

theorem accumulate_lastNextVisitDate (p : PatientData) (v : Visit) :
    (accumulate p v).lastNextVisitDate = max p.lastNextVisitDate v.nextVisitDate := by
  unfold accumulate
  simp only []
  split_ifs with h1 h2 h3 h3 h2 h3 h3 <;> simp only [] at * <;> omega

theorem foldl_accumulate_totalTabletDays (g : List Visit) (p : PatientData) :
    (g.foldl accumulate p).totalTabletDays
      = p.totalTabletDays + (g.map (fun v => v.tabletDays)).sum := by
  induction g generalizing p with
  | nil => simp
  | cons v g ih =>
    rw [List.foldl_cons, ih, accumulate_totalTabletDays, List.map_cons, List.sum_cons]
    ring

theorem foldl_accumulate_visits (g : List Visit) (p : PatientData) :
    (g.foldl accumulate p).visits = p.visits ++ g := by
  induction g generalizing p with
  | nil => simp
  | cons v g ih => rw [List.foldl_cons, ih, accumulate_visits]; simp

theorem foldl_accumulate_regNumber (g : List Visit) (p : PatientData) :
    (g.foldl accumulate p).regNumber = p.regNumber := by
  induction g generalizing p with
  | nil => rfl
  | cons v g ih => rw [List.foldl_cons, ih, accumulate_regNumber]

theorem foldl_accumulate_firstVisitDate (g : List Visit) (p : PatientData) :
    (g.foldl accumulate p).firstVisitDate
      = (g.map (fun v => v.visitDate)).foldl min p.firstVisitDate := by
  induction g generalizing p with
  | nil => rfl
  | cons v g ih => rw [List.foldl_cons, ih, accumulate_firstVisitDate]; rfl

theorem foldl_accumulate_lastVisitDate (g : List Visit) (p : PatientData) :
    (g.foldl accumulate p).lastVisitDate
      = (g.map (fun v => v.visitDate)).foldl max p.lastVisitDate := by
  induction g generalizing p with
  | nil => rfl
  | cons v g ih => rw [List.foldl_cons, ih, accumulate_lastVisitDate]; rfl

theorem foldl_accumulate_lastNextVisitDate (g : List Visit) (p : PatientData) :
    (g.foldl accumulate p).lastNextVisitDate
      = (g.map (fun v => v.nextVisitDate)).foldl max p.lastNextVisitDate := by
  induction g generalizing p with
  | nil => rfl
  | cons v g ih => rw [List.foldl_cons, ih, accumulate_lastNextVisitDate]; rfl

theorem foldl_min_le (l : List Int) (a : Int) :
    l.foldl min a ≤ a ∧ (∀ x ∈ l, l.foldl min a ≤ x) ∧ (l.foldl min a = a ∨ l.foldl min a ∈ l) := by
  induction l generalizing a with
  | nil => simp
  | cons x l ih =>
    obtain ⟨h1, h2, h3⟩ := ih (min a x)
    rw [List.foldl_cons]
    refine ⟨le_trans h1 (min_le_left a x), ?_, ?_⟩
    · intro y hy
      rcases List.mem_cons.1 hy with rfl | hy
      · exact le_trans h1 (min_le_right a y)
      · exact h2 y hy
    · rcases h3 with h3 | h3
      · rcases min_choice a x with h | h
        · left; rw [h3, h]
        · right; rw [h3, h]; exact List.mem_cons_self _ _
      · right; exact List.mem_cons_of_mem _ h3

theorem le_foldl_max (l : List Int) (a : Int) :
    a ≤ l.foldl max a ∧ (∀ x ∈ l, x ≤ l.foldl max a) ∧ (l.foldl max a = a ∨ l.foldl max a ∈ l) := by
  induction l generalizing a with
  | nil => simp
  | cons x l ih =>
    obtain ⟨h1, h2, h3⟩ := ih (max a x)
    rw [List.foldl_cons]
    refine ⟨le_trans (le_max_left a x) h1, ?_, ?_⟩
    · intro y hy
      rcases List.mem_cons.1 hy with rfl | hy
      · exact le_trans (le_max_right a y) h1
      · exact h2 y hy
    · rcases h3 with h3 | h3
      · rcases max_choice a x with h | h
        · left; rw [h3, h]
        · right; rw [h3, h]; exact List.mem_cons_self _ _
      · right; exact List.mem_cons_of_mem _ h3

/-- The entry of key `k` before the final sort, for a non-empty group. -/
theorem foldl_addVisit_get?_cons (visits : List Visit) (k : JSString) (v0 : Visit)
    (g : List Visit) (hg : recordsOf k visits = v0 :: g) :
    (visits.foldl addVisit []).get? k
      = some ((v0 :: g).foldl accumulate (newPatientData v0)) := by
  rw [foldl_addVisit_get?, hg]
  show List.foldl rollupStep (rollupStep none v0) g = _
  rw [show rollupStep none v0 = some (accumulate (newPatientData v0) v0) from rfl,
    foldl_rollupStep_some]
  rfl

theorem patientTabletData_get? (visits : List Visit) (k : JSString) :
    (patientTabletData visits).get? k
      = ((visits.foldl addVisit []).get? k).map
          (fun p => { p with visits := sortVisits p.visits }) := by
  unfold patientTabletData
  exact get?_map (visits.foldl addVisit [])
    (fun p => { p with visits := sortVisits p.visits }) k

theorem recordsOf_ne_nil (visits : List Visit) (k : JSString)
    (h : ∃ v ∈ visits, canon v.regNumber = k) : recordsOf k visits ≠ [] := by
  obtain ⟨v, hv, hk⟩ := h
  intro hnil
  have : v ∈ recordsOf k visits := by
    unfold recordsOf
    exact List.mem_filter.2 ⟨hv, by simpa using hk⟩
  rw [hnil] at this
  exact List.not_mem_nil _ this

theorem mem_recordsOf (visits : List Visit) (k : JSString) (v : Visit) :
    v ∈ recordsOf k visits ↔ v ∈ visits ∧ canon v.regNumber = k := by
  unfold recordsOf
  simp [List.mem_filter]

theorem rollup_of_group (visits : List Visit) (k : JSString)
    (h : ∃ v ∈ visits, canon v.regNumber = k) :
    ∃ v0 g, recordsOf k visits = v0 :: g ∧
      (patientTabletData visits).get? k
        = some { (v0 :: g).foldl accumulate (newPatientData v0) with
                 visits := sortVisits ((v0 :: g).foldl accumulate (newPatientData v0)).visits } := by
  have hne := recordsOf_ne_nil visits k h
  cases hg : recordsOf k visits with
  | nil => exact absurd hg hne
  | cons v0 g =>
    refine ⟨v0, g, rfl, ?_⟩
    rw [patientTabletData_get?, foldl_addVisit_get?_cons visits k v0 g hg]
    rfl

theorem rollup_range (visits : List Visit) (k : JSString)
    (h : ∃ v ∈ visits, canon v.regNumber = k) :
    ∃ p, (patientTabletData visits).get? k = some p ∧
      IsLeast {d | ∃ v ∈ visits, canon v.regNumber = k ∧ v.visitDate = d} p.firstVisitDate ∧
      IsGreatest {d | ∃ v ∈ visits, canon v.regNumber = k ∧ v.visitDate = d} p.lastVisitDate ∧
      IsGreatest {d | ∃ v ∈ visits, canon v.regNumber = k ∧ v.nextVisitDate = d}
        p.lastNextVisitDate := by
  obtain ⟨v0, g, hg, hp⟩ := rollup_of_group visits k h
  refine ⟨_, hp, ?_, ?_, ?_⟩
  · show IsLeast _ ((v0 :: g).foldl accumulate (newPatientData v0)).firstVisitDate
    rw [foldl_accumulate_firstVisitDate]
    obtain ⟨h1, h2, h3⟩ :=
      foldl_min_le ((v0 :: g).map (fun v => v.visitDate)) (newPatientData v0).firstVisitDate
    constructor
    · have hmem : List.foldl min (newPatientData v0).firstVisitDate
          ((v0 :: g).map (fun v => v.visitDate)) ∈ (v0 :: g).map (fun v => v.visitDate) := by
        rcases h3 with h3 | h3
        · rw [h3]; exact List.mem_cons_self _ _
        · exact h3
      obtain ⟨v, hv, hvd⟩ := List.mem_map.1 hmem
      rw [← hg, mem_recordsOf] at hv
      exact ⟨v, hv.1, hv.2, hvd⟩
    · rintro d ⟨v, hv, hk, rfl⟩
      apply h2
      apply List.mem_map.2
      exact ⟨v, by rw [← hg, mem_recordsOf]; exact ⟨hv, hk⟩, rfl⟩
  · show IsGreatest _ ((v0 :: g).foldl accumulate (newPatientData v0)).lastVisitDate
    rw [foldl_accumulate_lastVisitDate]
    obtain ⟨h1, h2, h3⟩ :=
      le_foldl_max ((v0 :: g).map (fun v => v.visitDate)) (newPatientData v0).lastVisitDate
    constructor
    · have hmem : List.foldl max (newPatientData v0).lastVisitDate
          ((v0 :: g).map (fun v => v.visitDate)) ∈ (v0 :: g).map (fun v => v.visitDate) := by
        rcases h3 with h3 | h3
        · rw [h3]; exact List.mem_cons_self _ _
        · exact h3
      obtain ⟨v, hv, hvd⟩ := List.mem_map.1 hmem
      rw [← hg, mem_recordsOf] at hv
      exact ⟨v, hv.1, hv.2, hvd⟩
    · rintro d ⟨v, hv, hk, rfl⟩
      apply h2
      apply List.mem_map.2
      exact ⟨v, by rw [← hg, mem_recordsOf]; exact ⟨hv, hk⟩, rfl⟩
  · show IsGreatest _ ((v0 :: g).foldl accumulate (newPatientData v0)).lastNextVisitDate
    rw [foldl_accumulate_lastNextVisitDate]
    obtain ⟨h1, h2, h3⟩ :=
      le_foldl_max ((v0 :: g).map (fun v => v.nextVisitDate))
        (newPatientData v0).lastNextVisitDate
    constructor
    · have hmem : List.foldl max (newPatientData v0).lastNextVisitDate
          ((v0 :: g).map (fun v => v.nextVisitDate))
            ∈ (v0 :: g).map (fun v => v.nextVisitDate) := by
        rcases h3 with h3 | h3
        · rw [h3]; exact List.mem_cons_self _ _
        · exact h3
      obtain ⟨v, hv, hvd⟩ := List.mem_map.1 hmem
      rw [← hg, mem_recordsOf] at hv
      exact ⟨v, hv.1, hv.2, hvd⟩
    · rintro d ⟨v, hv, hk, rfl⟩
      apply h2
      apply List.mem_map.2
      exact ⟨v, by rw [← hg, mem_recordsOf]; exact ⟨hv, hk⟩, rfl⟩

/-- C3: for every record list and every canonicalized registration number `k`
occurring in it, the entry of `k` in `patientTabletData` has a `totalTabletDays`
equal to the sum of `tabletDays` over exactly the records of the list whose
canonicalized registration number is `k`. -/
theorem totalTabletDays_eq_sum (visits : List Visit) (k : JSString)
    (h : ∃ v ∈ visits, canon v.regNumber = k) :
    ∃ p, (patientTabletData visits).get? k = some p ∧
      p.totalTabletDays
        = ((visits.filter (fun v => canon v.regNumber = k)).map (fun v => v.tabletDays)).sum := by
  obtain ⟨v0, g, hg, hp⟩ := rollup_of_group visits k h
  refine ⟨_, hp, ?_⟩
  show ((v0 :: g).foldl accumulate (newPatientData v0)).totalTabletDays = _
  rw [foldl_accumulate_totalTabletDays]
  have hrec : visits.filter (fun v => canon v.regNumber = k) = v0 :: g := hg
  rw [hrec]
  simp [newPatientData]

/-- Witness of C3 on the sample records: the patient with two visits. -/
theorem totalTabletDays_eq_sum_witness :
    (∃ v ∈ sampleVisits, canon v.regNumber = "2026/ABC/0001".toList) ∧
    (∃ p, (patientTabletData sampleVisits).get? "2026/ABC/0001".toList = some p ∧
      p.totalTabletDays
        = ((sampleVisits.filter (fun v => canon v.regNumber = "2026/ABC/0001".toList)).map
            (fun v => v.tabletDays)).sum) :=
  ⟨by decide, totalTabletDays_eq_sum sampleVisits "2026/ABC/0001".toList (by decide)⟩

/-- C6: for every record list and every canonicalized registration number `k`
occurring in it, the `visits` of the entry of `k` in `patientTabletData` are a
permutation of exactly the records whose canonicalized registration number is
`k`, ordered ascending by `visitDate`. -/
theorem visits_perm_sorted (visits : List Visit) (k : JSString)
    (h : ∃ v ∈ visits, canon v.regNumber = k) :
    ∃ p, (patientTabletData visits).get? k = some p ∧
      p.visits.Perm (visits.filter (fun v => canon v.regNumber = k)) ∧
      p.visits.Sorted (fun a b => a.visitDate ≤ b.visitDate) := by
  obtain ⟨v0, g, hg, hp⟩ := rollup_of_group visits k h
  refine ⟨_, hp, ?_, ?_⟩
  · show (sortVisits ((v0 :: g).foldl accumulate (newPatientData v0)).visits).Perm _
    rw [foldl_accumulate_visits]
    have hrec : visits.filter (fun v => canon v.regNumber = k) = v0 :: g := hg
    rw [hrec]
    exact List.perm_insertionSort _ _
  · show (sortVisits ((v0 :: g).foldl accumulate (newPatientData v0)).visits).Sorted _
    haveI : IsTotal Visit (fun a b => a.visitDate ≤ b.visitDate) :=
      ⟨fun a b => le_total a.visitDate b.visitDate⟩
    haveI : IsTrans Visit (fun a b => a.visitDate ≤ b.visitDate) :=
      ⟨fun a b c hab hbc => le_trans hab hbc⟩
    exact List.sorted_insertionSort _ _

/-- Witness of C6 on the sample records: the patient whose later visit is listed
first. -/
theorem visits_perm_sorted_witness :
    (∃ v ∈ sampleVisits, canon v.regNumber = "2026/ABC/0001".toList) ∧
    (∃ p, (patientTabletData sampleVisits).get? "2026/ABC/0001".toList = some p ∧
      p.visits.Perm (sampleVisits.filter (fun v => canon v.regNumber = "2026/ABC/0001".toList)) ∧
      p.visits.Sorted (fun a b => a.visitDate ≤ b.visitDate)) :=
  ⟨by decide, visits_perm_sorted sampleVisits "2026/ABC/0001".toList (by decide)⟩

/-- C7: for every record list and every canonicalized registration number `k`
occurring in it, the entry of `k` has as `firstVisitDate` the minimum
`visitDate`, as `lastVisitDate` the maximum `visitDate` and as
`lastNextVisitDate` the maximum `nextVisitDate` over the records whose
canonicalized registration number is `k`; every reordering of the list gives
the same three dates. -/
theorem visit_date_range (visits : List Visit) (k : JSString)
    (h : ∃ v ∈ visits, canon v.regNumber = k) :
    ∃ p, (patientTabletData visits).get? k = some p ∧
      IsLeast {d | ∃ v ∈ visits, canon v.regNumber = k ∧ v.visitDate = d} p.firstVisitDate ∧
      IsGreatest {d | ∃ v ∈ visits, canon v.regNumber = k ∧ v.visitDate = d} p.lastVisitDate ∧
      IsGreatest {d | ∃ v ∈ visits, canon v.regNumber = k ∧ v.nextVisitDate = d}
        p.lastNextVisitDate ∧
      ∀ visits' : List Visit, visits'.Perm visits →
        ∃ p', (patientTabletData visits').get? k = some p' ∧
          p'.firstVisitDate = p.firstVisitDate ∧ p'.lastVisitDate = p.lastVisitDate ∧
          p'.lastNextVisitDate = p.lastNextVisitDate := by
  obtain ⟨p, hp, hf, hl, hn⟩ := rollup_range visits k h
  refine ⟨p, hp, hf, hl, hn, ?_⟩
  intro visits' hperm
  have h' : ∃ v ∈ visits', canon v.regNumber = k := by
    obtain ⟨v, hv, hk⟩ := h
    exact ⟨v, hperm.mem_iff.2 hv, hk⟩
  obtain ⟨p', hp', hf', hl', hn'⟩ := rollup_range visits' k h'
  have e1 : {d | ∃ v ∈ visits', canon v.regNumber = k ∧ v.visitDate = d}
      = {d | ∃ v ∈ visits, canon v.regNumber = k ∧ v.visitDate = d} := by
    ext d; simp only [Set.mem_setOf_eq, hperm.mem_iff]
  have e2 : {d | ∃ v ∈ visits', canon v.regNumber = k ∧ v.nextVisitDate = d}
      = {d | ∃ v ∈ visits, canon v.regNumber = k ∧ v.nextVisitDate = d} := by
    ext d; simp only [Set.mem_setOf_eq, hperm.mem_iff]
  rw [e1] at hf' hl'
  rw [e2] at hn'
  exact ⟨p', hp', hf'.unique hf, hl'.unique hl, hn'.unique hn⟩

/-- Witness of C7 on the sample records. -/
theorem visit_date_range_witness :
    (∃ v ∈ sampleVisits, canon v.regNumber = "2026/ABC/0001".toList) ∧
    (∃ p, (patientTabletData sampleVisits).get? "2026/ABC/0001".toList = some p ∧
      IsLeast {d | ∃ v ∈ sampleVisits, canon v.regNumber = "2026/ABC/0001".toList ∧
        v.visitDate = d} p.firstVisitDate ∧
      IsGreatest {d | ∃ v ∈ sampleVisits, canon v.regNumber = "2026/ABC/0001".toList ∧
        v.visitDate = d} p.lastVisitDate ∧
      IsGreatest {d | ∃ v ∈ sampleVisits, canon v.regNumber = "2026/ABC/0001".toList ∧
        v.nextVisitDate = d} p.lastNextVisitDate ∧
      ∀ visits' : List Visit, visits'.Perm sampleVisits →
        ∃ p', (patientTabletData visits').get? "2026/ABC/0001".toList = some p' ∧
          p'.firstVisitDate = p.firstVisitDate ∧ p'.lastVisitDate = p.lastVisitDate ∧
          p'.lastNextVisitDate = p.lastNextVisitDate) :=
  ⟨by decide, visit_date_range sampleVisits "2026/ABC/0001".toList (by decide)⟩

/-! ## Tablet days -/

theorem ceilDiv_eq_ceil (a : Int) (b : Nat) :
    ceilDiv a (b : Int) = ⌈((a : ℚ) / (b : ℚ))⌉ := by
  unfold ceilDiv
  rw [← Rat.floor_intCast_div_natCast, Int.cast_neg, neg_div, Int.floor_neg, neg_neg]

theorem ceilDiv_pos_iff (a : Int) : 0 < ceilDiv a msPerDay ↔ 0 < a := by
  unfold ceilDiv msPerDay
  omega

theorem calculateTabletDays_eq_max (visitDate nextVisitDate : Int) :
    calculateTabletDays visitDate nextVisitDate
      = max 0 ⌈(((nextVisitDate - visitDate : Int) : ℚ) / (86400000 : ℚ))⌉ := by
  have hc : ceilDiv (nextVisitDate - visitDate) msPerDay
      = ⌈(((nextVisitDate - visitDate : Int) : ℚ) / (86400000 : ℚ))⌉ := by
    have := ceilDiv_eq_ceil (nextVisitDate - visitDate) 86400000
    simpa [msPerDay] using this
  unfold calculateTabletDays
  simp only []
  rw [← hc]
  split_ifs with h
  · exact (max_eq_right (le_of_lt h)).symm
  · exact (max_eq_left (not_lt.1 h)).symm

theorem calculateTabletDays_eq_zero_iff (visitDate nextVisitDate : Int) :
    calculateTabletDays visitDate nextVisitDate = 0 ↔ nextVisitDate ≤ visitDate := by
  have hpos := ceilDiv_pos_iff (nextVisitDate - visitDate)
  unfold calculateTabletDays
  simp only []
  split_ifs with h
  · constructor
    · intro h0; omega
    · intro hle
      have := hpos.1 h
      omega
  · constructor
    · intro _
      by_contra hlt
      exact h (hpos.2 (by omega))
    · intro _; rfl

/-- C4: for every pair of dates, `calculateTabletDays(visitDate, nextVisitDate)`
is `max(0, ceil((nextVisitDate - visitDate) / one day))`; it is 0 exactly when
`nextVisitDate` is not after `visitDate`; and 2026-01-01 to 2026-03-01 gives 59. -/
theorem calculateTabletDays_eq (visitDate nextVisitDate : Int) :
    calculateTabletDays visitDate nextVisitDate
      = max 0 ⌈(((nextVisitDate - visitDate : Int) : ℚ) / (86400000 : ℚ))⌉ ∧
    (calculateTabletDays visitDate nextVisitDate = 0 ↔ nextVisitDate ≤ visitDate) ∧
    calculateTabletDays (parseISODate 2026 1 1) (parseISODate 2026 3 1) = 59 :=
  ⟨calculateTabletDays_eq_max visitDate nextVisitDate,
   calculateTabletDays_eq_zero_iff visitDate nextVisitDate, by decide⟩

/-- C5, counterexample: the record `loadDataFromGoogle` builds from a cached
record without `tabletDays` holds 0 tablet days although its dates are ten days
apart. -/
theorem loaded_tabletDays_drift :
    loadVisits [legacyRawVisit] = [loadVisit legacyRawVisit] ∧
    (loadVisit legacyRawVisit).tabletDays = 0 ∧
    calculateTabletDays (loadVisit legacyRawVisit).visitDate
      (loadVisit legacyRawVisit).nextVisitDate = 10 ∧
    ¬ ∀ r ∈ loadVisits [legacyRawVisit],
        r.tabletDays = calculateTabletDays r.visitDate r.nextVisitDate := by
  refine ⟨rfl, by decide, by decide, by decide⟩

/-- C5, amended: the record `handleSubmit` creates has
`tabletDays = calculateTabletDays(visitDate, nextVisitDate)
= max(0, ceil(days(nextVisitDate - visitDate)))`, a positive number; a record
brought in by `loadDataFromGoogle` holds the `tabletDays` it was stored with, 0
when that is absent, and is not recomputed from its dates. -/
theorem submitted_tabletDays (form : Form) (now recordedAt : Int) (v : Visit)
    (h : newVisit form now recordedAt = some v) :
    v.tabletDays = calculateTabletDays v.visitDate v.nextVisitDate ∧
    v.tabletDays = max 0 ⌈(((v.nextVisitDate - v.visitDate : Int) : ℚ) / (86400000 : ℚ))⌉ ∧
    0 < v.tabletDays ∧
    ∀ raw : RawVisit, (loadVisit raw).tabletDays = raw.tabletDays.getD 0 := by
  have hv : v.tabletDays = calculateTabletDays v.visitDate v.nextVisitDate ∧
      v.visitDate < v.nextVisitDate := by
    unfold newVisit at h
    split at h
    · split_ifs at h with h1 h2
      simp only [] at h
      split_ifs at h with h3
      simp only [Option.some.injEq] at h
      subst h
      exact ⟨rfl, not_le.1 h3⟩
    · exact absurd h (by simp)
  refine ⟨hv.1, ?_, ?_, fun raw => rfl⟩
  · rw [hv.1]; exact calculateTabletDays_eq_max _ _
  · have h0 := calculateTabletDays_eq_zero_iff v.visitDate v.nextVisitDate
    have hnn : 0 ≤ calculateTabletDays v.visitDate v.nextVisitDate := by
      rw [calculateTabletDays_eq_max]; exact le_max_left _ _
    rw [hv.1]
    rcases lt_or_eq_of_le hnn with hlt | heq
    · exact hlt
    · exact absurd (h0.1 heq.symm) (not_le.2 hv.2)

/-- Witness of the amended C5: the sample form submitted at the clock readings
99 and 100 yields a record with 59 tablet days. -/
theorem submitted_tabletDays_witness :
    newVisit sampleForm 99 100 = some sampleSubmitted ∧
    (sampleSubmitted.tabletDays
        = calculateTabletDays sampleSubmitted.visitDate sampleSubmitted.nextVisitDate ∧
      sampleSubmitted.tabletDays
        = max 0 ⌈(((sampleSubmitted.nextVisitDate - sampleSubmitted.visitDate : Int) : ℚ)
            / (86400000 : ℚ))⌉ ∧
      0 < sampleSubmitted.tabletDays ∧
      ∀ raw : RawVisit, (loadVisit raw).tabletDays = raw.tabletDays.getD 0) :=
  ⟨by decide, submitted_tabletDays sampleForm 99 100 sampleSubmitted (by decide)⟩

/-! ## Lemmas on strings -/

theorem toNat_ofNat_small (m : Nat) (h : m < 200) : (Char.ofNat m).toNat = m := by
  interval_cases m <;> rfl

theorem toUpper_toUpper (c : Char) : c.toUpper.toUpper = c.toUpper := by
  by_cases h : c.toNat ≥ 97 ∧ c.toNat ≤ 122
  · have h1 : c.toUpper = Char.ofNat (c.toNat - 32) := by
      unfold Char.toUpper; simp only []; rw [if_pos h]
    have h2 : (Char.ofNat (c.toNat - 32)).toNat = c.toNat - 32 :=
      toNat_ofNat_small _ (by omega)
    rw [h1]
    unfold Char.toUpper
    simp only []
    rw [h2, if_neg (by omega)]
  · have h1 : c.toUpper = c := by
      unfold Char.toUpper; simp only []; rw [if_neg h]
    rw [h1, h1]

theorem toUpperCase_idem (s : JSString) : toUpperCase (toUpperCase s) = toUpperCase s := by
  unfold toUpperCase
  rw [List.map_map]
  apply List.map_congr_left
  intro c _
  exact toUpper_toUpper c

theorem toUpperCase_canon (s : JSString) : toUpperCase (canon s) = canon s :=
  toUpperCase_idem (trim s)

theorem includes_iff (s t : JSString) : includes s t = true ↔ t <:+: s := by
  unfold includes
  rw [List.any_eq_true, List.infix_iff_prefix_suffix]
  constructor
  · rintro ⟨u, hu, hp⟩
    exact ⟨u, List.isPrefixOf_iff_prefix.1 hp, (List.mem_tails u s).1 hu⟩
  · rintro ⟨u, hp, hu⟩
    exact ⟨u, (List.mem_tails u s).2 hu, List.isPrefixOf_iff_prefix.2 hp⟩

theorem suggestionMatch_iff (search k : JSString) (hk : toUpperCase k = k) :
    suggestionMatch search k = true ↔ matchRule search k := by
  unfold suggestionMatch matchRule sliceLast4
  simp only [Bool.or_eq_true, includes_iff, hk]

/-! ## Keys of the rollup object -/

theorem insertionKeys_set {κ α : Type} [DecidableEq κ] (o : JSObject κ α) (k : κ) (v : α) :
    JSObject.insertionKeys (o.set k v) = setAdd (JSObject.insertionKeys o) k := by
  induction o with
  | nil => rfl
  | cons e o ih =>
    obtain ⟨k0, v0⟩ := e
    by_cases h : k0 = k
    · subst h
      simp [JSObject.set, JSObject.insertionKeys, setAdd]
    · have h' : ¬ k = k0 := fun e => h e.symm
      unfold JSObject.insertionKeys at ih
      simp only [JSObject.set, JSObject.insertionKeys, h, if_false, List.map_cons, ih]
      unfold setAdd
      simp only [List.mem_cons, h', false_or]
      split_ifs <;> simp

theorem insertionKeys_foldl_addVisit (vs : List Visit) (pd : JSObject JSString PatientData) :
    JSObject.insertionKeys (vs.foldl addVisit pd)
      = (vs.map (fun v => canon v.regNumber)).foldl setAdd (JSObject.insertionKeys pd) := by
  induction vs generalizing pd with
  | nil => rfl
  | cons v vs ih =>
    rw [List.foldl_cons, ih]
    unfold addVisit
    simp only [insertionKeys_set, List.map_cons, List.foldl_cons]

theorem foldl_setAdd_eq {α : Type} [DecidableEq α] (l s : List α) :
    l.foldl setAdd s = s ++ (firstAppearances l).filter (fun y => decide (y ∉ s)) := by
  induction l generalizing s with
  | nil => simp [firstAppearances]
  | cons x l ih =>
    rw [List.foldl_cons, ih]
    by_cases hx : x ∈ s
    · have e1 : setAdd s x = s := by unfold setAdd; rw [if_pos hx]
      have e2 : (firstAppearances (x :: l)).filter (fun y => decide (y ∉ s))
          = (firstAppearances l).filter (fun y => decide (y ∉ s)) := by
        show (x :: (firstAppearances l).filter (fun y => y ≠ x)).filter _ = _
        rw [List.filter_cons_of_neg (by simpa using hx), List.filter_filter]
        apply List.filter_congr
        intro y _
        by_cases hy : y ∈ s
        · simp [hy]
        · have : y ≠ x := fun e => hy (e ▸ hx)
          simp [hy, this]
      rw [e1, e2]
    · have e1 : setAdd s x = s ++ [x] := by unfold setAdd; rw [if_neg hx]
      have e2 : (firstAppearances (x :: l)).filter (fun y => decide (y ∉ s))
          = x :: (firstAppearances l).filter (fun y => decide (y ∉ s ++ [x])) := by
        show (x :: (firstAppearances l).filter (fun y => y ≠ x)).filter _ = _
        rw [List.filter_cons_of_pos (by simpa using hx), List.filter_filter]
        congr 1
        apply List.filter_congr
        intro y _
        by_cases hy : y ∈ s
        · simp [hy]
        · by_cases hyx : y = x
          · simp [hy, hyx]
          · simp [hy, hyx]
      rw [e1, e2, List.append_assoc, List.singleton_append]

theorem insertionKeys_patientTabletData (visits : List Visit) :
    JSObject.insertionKeys (patientTabletData visits)
      = firstAppearances (visits.map (fun v => canon v.regNumber)) := by
  unfold patientTabletData
  have hmap : ∀ o : JSObject JSString PatientData,
      JSObject.insertionKeys
          (o.map (fun kv => (kv.1, { kv.2 with visits := sortVisits kv.2.visits })))
        = JSObject.insertionKeys o := by
    intro o
    unfold JSObject.insertionKeys
    rw [List.map_map]
    rfl
  rw [hmap, insertionKeys_foldl_addVisit, foldl_setAdd_eq]
  simp [JSObject.insertionKeys]

theorem mem_firstAppearances {α : Type} [DecidableEq α] (l : List α) (y : α) :
    y ∈ firstAppearances l ↔ y ∈ l := by
  have h := mem_foldl_setAdd l [] y
  rw [foldl_setAdd_eq] at h
  simpa using h

theorem mem_objectKeys {α : Type} (o : JSObject JSString α) (k : JSString) :
    k ∈ objectKeys o ↔ k ∈ JSObject.insertionKeys o := by
  unfold objectKeys
  simp only [List.mem_append, (List.perm_insertionSort _ _).mem_iff, List.mem_filter]
  cases h : arrayIndex? k <;> simp [h]

theorem objectKeys_eq_insertionKeys {α : Type} (o : JSObject JSString α)
    (h : ∀ k ∈ JSObject.insertionKeys o, arrayIndex? k = none) :
    objectKeys o = JSObject.insertionKeys o := by
  unfold objectKeys
  simp only []
  have h1 : (JSObject.insertionKeys o).filter (fun k => (arrayIndex? k).isSome) = [] := by
    rw [List.filter_eq_nil_iff]
    intro k hk
    simp [h k hk]
  have h2 : (JSObject.insertionKeys o).filter (fun k => (arrayIndex? k).isNone)
      = JSObject.insertionKeys o := by
    rw [List.filter_eq_self]
    intro k hk
    simp [h k hk]
  rw [h1, h2]
  rfl

theorem patientTabletData_keys_canonical (visits : List Visit) :
    ∀ k ∈ JSObject.insertionKeys (patientTabletData visits), toUpperCase k = k := by
  intro k hk
  rw [insertionKeys_patientTabletData, mem_firstAppearances] at hk
  obtain ⟨v, _, rfl⟩ := List.mem_map.1 hk
  exact toUpperCase_canon _

/-! ## `getRegNumberSuggestions` -/

/-- C8: for every rollup object (its keys being canonicalized registration
numbers, hence unchanged by uppercasing) and every query,
`getRegNumberSuggestions` returns at most 10 entries, and every returned entry
`k` is a key that contains the uppercased, trimmed query as a substring or
whose last 4 characters contain it. -/
theorem suggestions_bounded_and_matching {α : Type} (patientData : JSObject JSString α)
    (searchTerm : JSString)
    (hkeys : ∀ k ∈ JSObject.insertionKeys patientData, toUpperCase k = k) :
    (getRegNumberSuggestions patientData searchTerm).length ≤ 10 ∧
    ∀ k ∈ getRegNumberSuggestions patientData searchTerm,
      k ∈ JSObject.insertionKeys patientData ∧
      (trim (toUpperCase searchTerm) <:+: k ∨
        trim (toUpperCase searchTerm) <:+: k.drop (k.length - 4)) := by
  unfold getRegNumberSuggestions
  split_ifs with hq
  · exact ⟨by simp, fun k hk => absurd hk (List.not_mem_nil k)⟩
  · refine ⟨List.length_take_le _ _, ?_⟩
    intro k hk
    have hk' := List.mem_filter.1 (List.mem_of_mem_take hk)
    have hmem := (mem_objectKeys patientData k).1 hk'.1
    exact ⟨hmem, (suggestionMatch_iff _ k (hkeys k hmem)).1 hk'.2⟩

/-- Witness of C8: the rollups of the sample records, queried with "0001". -/
theorem suggestions_bounded_and_matching_witness :
    (∀ k ∈ JSObject.insertionKeys (patientTabletData sampleVisits), toUpperCase k = k) ∧
    (getRegNumberSuggestions (patientTabletData sampleVisits) "0001".toList).length ≤ 10 ∧
    ∀ k ∈ getRegNumberSuggestions (patientTabletData sampleVisits) "0001".toList,
      k ∈ JSObject.insertionKeys (patientTabletData sampleVisits) ∧
      (trim (toUpperCase "0001".toList) <:+: k ∨
        trim (toUpperCase "0001".toList) <:+: k.drop (k.length - 4)) :=
  ⟨by decide,
   suggestions_bounded_and_matching (patientTabletData sampleVisits) "0001".toList (by decide)⟩

/-- C9, the code at the failing input: a query of one blank passes the
emptiness guard, is trimmed to the empty string, and every key is returned,
whereas the empty query returns nothing. -/
theorem blank_query_returns_every_key :
    getRegNumberSuggestions (patientTabletData sampleVisits) " ".toList
      = ["2026/ABC/0001".toList, "2025/XYZ/0042".toList] ∧
    trim " ".toList = [] ∧
    getRegNumberSuggestions (patientTabletData sampleVisits) [] = [] := by
  refine ⟨by decide, by decide, by decide⟩

/-- C10, counterexample: with the registration numbers "10" and "1", in that
order in the record list, the query "1" yields "1" before "10", while the
order of first appearance is "10" before "1"; and for the empty query nothing
is returned although every key satisfies the match rule. -/
theorem suggestions_not_first_appearance :
    getRegNumberSuggestions (patientTabletData numericVisits) "1".toList
      = ["1".toList, "10".toList] ∧
    firstMatches numericVisits "1".toList = ["10".toList, "1".toList] ∧
    getRegNumberSuggestions (patientTabletData sampleVisits) [] = [] ∧
    firstMatches sampleVisits [] = ["2026/ABC/0001".toList, "2025/XYZ/0042".toList] ∧
    ¬ ∀ (visits : List Visit) (query : JSString),
        getRegNumberSuggestions (patientTabletData visits) query = firstMatches visits query := by
  refine ⟨by decide, by decide, by decide, by decide, ?_⟩
  intro h
  exact absurd (h numericVisits "1".toList) (by decide)

theorem suggestions_eq_firstMatches (visits : List Visit) (query : JSString)
    (hq : query ≠ [])
    (hidx : ∀ v ∈ visits, arrayIndex? (canon v.regNumber) = none) :
    getRegNumberSuggestions (patientTabletData visits) query = firstMatches visits query := by
  unfold getRegNumberSuggestions firstMatches
  rw [if_neg hq]
  simp only []
  have hkeys : objectKeys (patientTabletData visits)
      = firstAppearances (visits.map (fun v => canon v.regNumber)) := by
    rw [objectKeys_eq_insertionKeys, insertionKeys_patientTabletData]
    intro k hk
    rw [insertionKeys_patientTabletData, mem_firstAppearances] at hk
    obtain ⟨v, hv, rfl⟩ := List.mem_map.1 hk
    exact hidx v hv
  rw [hkeys]
  congr 1
  apply List.filter_congr
  intro k hk
  have hcanon : toUpperCase k = k := by
    apply patientTabletData_keys_canonical visits
    rw [insertionKeys_patientTabletData]
    exact hk
  have := suggestionMatch_iff (trim (toUpperCase query)) k hcanon
  by_cases hm : matchRule (trim (toUpperCase query)) k
  · rw [this.2 hm]; simp [hm]
  · have hf : suggestionMatch (trim (toUpperCase query)) k = false := by
      cases hs : suggestionMatch (trim (toUpperCase query)) k
      · rfl
      · exact absurd (this.1 hs) hm
    rw [hf]; simp [hm]

/-- C10, amended: for every record list, the empty query gives the empty result;
and for every record list none of whose canonicalized registration numbers is
an array-index key (a canonical decimal numeral below `2^32 - 1`) and every
non-empty query, `getRegNumberSuggestions` over the rollups of the list
returns exactly the first 10 (or fewer) canonicalized registration numbers
satisfying the match rule, in the order in which each first appears in the
record list. -/
theorem suggestions_first_appearance (visits : List Visit) (query : JSString) :
    getRegNumberSuggestions (patientTabletData visits) [] = [] ∧
    (query ≠ [] → (∀ v ∈ visits, arrayIndex? (canon v.regNumber) = none) →
      getRegNumberSuggestions (patientTabletData visits) query
        = firstMatches visits query) :=
  ⟨rfl, fun hq hidx => suggestions_eq_firstMatches visits query hq hidx⟩

/-- Witness of the amended C10: the sample records queried with "20" and with
the empty query. -/
theorem suggestions_first_appearance_witness :
    ("20".toList ≠ [] ∧
      ∀ v ∈ sampleVisits, arrayIndex? (canon v.regNumber) = none) ∧
    getRegNumberSuggestions (patientTabletData sampleVisits) [] = [] ∧
    getRegNumberSuggestions (patientTabletData sampleVisits) "20".toList
      = firstMatches sampleVisits "20".toList :=
  ⟨by decide,
   (suggestions_first_appearance sampleVisits "20".toList).1,
   (suggestions_first_appearance sampleVisits "20".toList).2 (by decide) (by decide)⟩

/-! ## Lemmas on digits and `trim` -/

theorem isDigit_toNat (c : Char) (h : c.isDigit = true) : 48 ≤ c.toNat ∧ c.toNat ≤ 57 := by
  unfold Char.isDigit at h
  simp only [Bool.and_eq_true, decide_eq_true_eq, ge_iff_le] at h
  have h1 : (48 : UInt32) ≤ c.val := h.1
  have h2 : c.val ≤ (57 : UInt32) := h.2
  rw [UInt32.le_def] at h1 h2
  constructor
  · simpa using h1
  · simpa using h2

theorem isDigit_not_whitespace (c : Char) (h : c.isDigit = true) : isJSWhitespace c = false := by
  obtain ⟨h1, h2⟩ := isDigit_toNat c h
  unfold isJSWhitespace
  simp only [Bool.or_eq_false_iff, beq_eq_false_iff_ne, Bool.and_eq_false_iff, ne_eq,
    decide_eq_false_iff_not]
  refine ⟨⟨⟨⟨⟨⟨⟨⟨⟨⟨⟨⟨⟨⟨?_, ?_⟩, ?_⟩, ?_⟩, ?_⟩, ?_⟩, ?_⟩, ?_⟩, ?_⟩, ?_⟩, ?_⟩, ?_⟩, ?_⟩, ?_⟩, ?_⟩ <;>
    omega

theorem isDigit_toUpper (c : Char) (h : c.isDigit = true) : c.toUpper = c := by
  obtain ⟨h1, h2⟩ := isDigit_toNat c h
  unfold Char.toUpper
  simp only []
  rw [if_neg (by omega)]

theorem toUpperCase_digits (s : JSString) (h : ∀ c ∈ s, c.isDigit = true) :
    toUpperCase s = s := by
  unfold toUpperCase
  conv_rhs => rw [← List.map_id s]
  apply List.map_congr_left
  intro c hc
  exact isDigit_toUpper c (h c hc)

theorem trim_eq_rdropWhile (s : JSString) :
    trim s = (s.dropWhile isJSWhitespace).rdropWhile isJSWhitespace := rfl

theorem trim_eq_self (s : JSString)
    (h1 : ∀ hl : 0 < s.length, ¬ isJSWhitespace (s.get ⟨0, hl⟩) = true)
    (h2 : ∀ hl : s ≠ [], ¬ isJSWhitespace (s.getLast hl) = true) : trim s = s := by
  rw [trim_eq_rdropWhile, List.dropWhile_eq_self_iff.2 h1, List.rdropWhile_eq_self_iff.2 h2]

theorem trim_digits (s : JSString) (h : ∀ c ∈ s, c.isDigit = true) : trim s = s := by
  apply trim_eq_self
  · intro hl
    rw [isDigit_not_whitespace _ (h _ (List.get_mem s 0 hl))]
    simp
  · intro hl
    rw [isDigit_not_whitespace _ (h _ (List.getLast_mem hl))]
    simp

/-! ## Suggestions by the last four digits -/

/-- C11, counterexample: with eleven patients whose numbers end in "0001", the
query "0001" returns the first ten and leaves out the eleventh, which is a key
of the rollup object. -/
theorem eleventh_match_not_returned :
    "2026/AAK/0001".toList ∈ JSObject.insertionKeys (patientTabletData elevenVisits) ∧
    "0001".toList <:+ "2026/AAK/0001".toList ∧
    (getRegNumberSuggestions (patientTabletData elevenVisits) "0001".toList).length = 10 ∧
    "2026/AAK/0001".toList
      ∉ getRegNumberSuggestions (patientTabletData elevenVisits) "0001".toList := by
  refine ⟨by decide, by decide, by decide, by decide⟩

/-- C11, amended: for every rollup object, every key `k` of it and every string
of four digits that `k` ends in (such as "0001", whatever the year and code
prefix), `k` passes the filter of `getRegNumberSuggestions` for that query, and
it is among the returned entries whenever at most 10 keys pass the filter. -/
theorem last4_query_returns_patient {α : Type} (patientData : JSObject JSString α)
    (k digits : JSString) (hk : k ∈ JSObject.insertionKeys patientData)
    (hlen : digits.length = 4) (hdig : ∀ c ∈ digits, c.isDigit = true)
    (hend : digits <:+ k)
    (hfew : ((objectKeys patientData).filter
      (suggestionMatch (trim (toUpperCase digits)))).length ≤ 10) :
    suggestionMatch (trim (toUpperCase digits)) k = true ∧
    k ∈ getRegNumberSuggestions patientData digits := by
  have hsearch : trim (toUpperCase digits) = digits := by
    rw [toUpperCase_digits digits hdig, trim_digits digits hdig]
  have hne : digits ≠ [] := by
    intro h
    rw [h] at hlen
    simp at hlen
  have hmatch : suggestionMatch digits k = true := by
    unfold suggestionMatch sliceLast4
    simp only [Bool.or_eq_true, includes_iff]
    right
    have := List.suffix_iff_eq_drop.1 hend
    rw [hlen] at this
    rw [← this]
  rw [hsearch] at hfew ⊢
  refine ⟨hmatch, ?_⟩
  unfold getRegNumberSuggestions
  rw [if_neg hne]
  simp only []
  rw [hsearch, List.take_of_length_le hfew]
  exact List.mem_filter.2 ⟨(mem_objectKeys patientData k).2 hk, hmatch⟩

/-- Witness of the amended C11: the sample rollups queried with "0001". -/
theorem last4_query_returns_patient_witness :
    ("2026/ABC/0001".toList ∈ JSObject.insertionKeys (patientTabletData sampleVisits) ∧
      "0001".toList.length = 4 ∧ (∀ c ∈ "0001".toList, c.isDigit = true) ∧
      "0001".toList <:+ "2026/ABC/0001".toList ∧
      ((objectKeys (patientTabletData sampleVisits)).filter
        (suggestionMatch (trim (toUpperCase "0001".toList)))).length ≤ 10) ∧
    (suggestionMatch (trim (toUpperCase "0001".toList)) "2026/ABC/0001".toList = true ∧
      "2026/ABC/0001".toList
        ∈ getRegNumberSuggestions (patientTabletData sampleVisits) "0001".toList) :=
  ⟨by decide,
   last4_query_returns_patient (patientTabletData sampleVisits) "2026/ABC/0001".toList
     "0001".toList (by decide) (by decide) (by decide) (by decide) (by decide)⟩

/-! ## Store operations -/

theorem newVisit_eq_none_of_rejected (form : Form) (now recordedAt : Int)
    (h : form.regNumber = [] ∨ form.visitDate = none ∨ form.nextVisitDate = none ∨
      regNumberPattern form.regNumber = false ∨
      ∃ visitDay nextDay, form.visitDate = some visitDay ∧ form.nextVisitDate = some nextDay ∧
        nextDay ≤ visitDay) :
    newVisit form now recordedAt = none := by
  unfold newVisit
  split
  · rename_i visitDay nextDay hv hn
    by_cases h1 : form.regNumber = []
    · rw [if_pos h1]
    · rw [if_neg h1]
      cases hp : regNumberPattern form.regNumber
      · simp
      · simp only [Bool.not_true, Bool.false_eq_true, if_false]
        rcases h with h | h | h | h | ⟨vd, nd, hvd, hnd, hle⟩
        · exact absurd h h1
        · rw [hv] at h; exact absurd h (by simp)
        · rw [hn] at h; exact absurd h (by simp)
        · rw [hp] at h; exact absurd h (by simp)
        · rw [hv] at hvd
          rw [hn] at hnd
          simp only [Option.some.injEq] at hvd hnd
          subst hvd
          subst hnd
          rw [if_pos]
          exact Int.mul_le_mul_of_nonneg_right hle (by decide)
  · rfl

theorem newVisit_some (form : Form) (now recordedAt : Int) (v : Visit)
    (h : newVisit form now recordedAt = some v) :
    ∃ visitDay nextDay, form.visitDate = some visitDay ∧ form.nextVisitDate = some nextDay ∧
      regNumberPattern form.regNumber = true ∧ visitDay * msPerDay < nextDay * msPerDay ∧
      v = { id := now, regNumber := trim form.regNumber, visitDate := visitDay * msPerDay,
            nextVisitDate := nextDay * msPerDay,
            tabletDays := calculateTabletDays (visitDay * msPerDay) (nextDay * msPerDay),
            completed := false, completedAt := none, recordedAt := some recordedAt } := by
  unfold newVisit at h
  split at h
  · rename_i visitDay nextDay hv hn
    split_ifs at h with h1 h2
    simp only [] at h
    split_ifs at h with h3
    simp only [Option.some.injEq] at h
    refine ⟨visitDay, nextDay, hv, hn, ?_, not_le.1 h3, h.symm⟩
    cases hp : regNumberPattern form.regNumber
    · rw [hp] at h2; simp at h2
    · rfl
  · exact absurd h (by simp)

theorem callGoogleScript_local (s : Store) (request : Request) (gw : Gateway)
    (h : s.googleScriptUrl = [] ∨ gw.post = Reply.refused ∨ gw.post = Reply.failure) :
    (callGoogleScript s request gw).2 = false ∧
    (callGoogleScript s request gw).1.visits = s.visits ∧
    (callGoogleScript s request gw).1.cache = s.cache ∧
    (callGoogleScript s request gw).1.googleScriptUrl = s.googleScriptUrl := by
  unfold callGoogleScript
  by_cases hu : s.googleScriptUrl = []
  · rw [if_pos hu]
    exact ⟨rfl, rfl, rfl, rfl⟩
  · rw [if_neg hu]
    rcases h with h | h | h
    · exact absurd h hu
    · simp [h]
    · simp [h]

/-- C12: for every store state and every form in which a required field is
missing, or the registration number does not match `^\d{4}/[A-Z]{3}/\d{4}$`, or
`nextVisitDate <= visitDate` (equality included), `handleSubmit` creates no
record: the store is left as it was, in particular the record list, the local
cache and the log of gateway requests. -/
theorem handleSubmit_rejected (s : Store) (form : Form) (now recordedAt : Int) (gw : Gateway)
    (h : form.regNumber = [] ∨ form.visitDate = none ∨ form.nextVisitDate = none ∨
      regNumberPattern form.regNumber = false ∨
      ∃ visitDay nextDay, form.visitDate = some visitDay ∧ form.nextVisitDate = some nextDay ∧
        nextDay ≤ visitDay) :
    newVisit form now recordedAt = none ∧
    handleSubmit s form now recordedAt gw = s ∧
    (handleSubmit s form now recordedAt gw).visits = s.visits ∧
    (handleSubmit s form now recordedAt gw).cache = s.cache ∧
    (handleSubmit s form now recordedAt gw).requests = s.requests := by
  have hn := newVisit_eq_none_of_rejected form now recordedAt h
  have hs : handleSubmit s form now recordedAt gw = s := by
    unfold handleSubmit
    rw [hn]
  refine ⟨hn, hs, ?_, ?_, ?_⟩ <;> rw [hs]

/-- Witness of C12: a form whose two dates are equal, submitted to the sample
store. -/
theorem handleSubmit_rejected_witness :
    (zeroLengthForm.regNumber = [] ∨ zeroLengthForm.visitDate = none ∨
      zeroLengthForm.nextVisitDate = none ∨
      regNumberPattern zeroLengthForm.regNumber = false ∨
      ∃ visitDay nextDay, zeroLengthForm.visitDate = some visitDay ∧
        zeroLengthForm.nextVisitDate = some nextDay ∧ nextDay ≤ visitDay) ∧
    (newVisit zeroLengthForm 99 100 = none ∧
      handleSubmit sampleStore zeroLengthForm 99 100 unreachable = sampleStore ∧
      (handleSubmit sampleStore zeroLengthForm 99 100 unreachable).visits = sampleStore.visits ∧
      (handleSubmit sampleStore zeroLengthForm 99 100 unreachable).cache = sampleStore.cache ∧
      (handleSubmit sampleStore zeroLengthForm 99 100 unreachable).requests
        = sampleStore.requests) :=
  ⟨Or.inr (Or.inr (Or.inr (Or.inr ⟨20454, 20454, rfl, rfl, le_refl _⟩))),
   handleSubmit_rejected sampleStore zeroLengthForm 99 100 unreachable
     (Or.inr (Or.inr (Or.inr (Or.inr ⟨20454, 20454, rfl, rfl, le_refl _⟩))))⟩

/-- C15: for every store state and id, after a confirmed `deleteVisit(id)` the
record list is the previous list without the records whose id equals `id`, the
others kept in their order (so it is unchanged exactly when no record has that
id), and the local cache holds the resulting list when it is non-empty and is
removed when it is empty. -/
theorem deleteVisit_effect (s : Store) (id : Int) (gw : Gateway) :
    (deleteVisit s id true gw).visits = s.visits.filter (fun v => v.id ≠ id) ∧
    (∀ v, v ∈ (deleteVisit s id true gw).visits ↔ v ∈ s.visits ∧ v.id ≠ id) ∧
    (deleteVisit s id true gw).visits.Sublist s.visits ∧
    ((deleteVisit s id true gw).visits = s.visits ↔ ∀ v ∈ s.visits, v.id ≠ id) ∧
    (deleteVisit s id true gw).cache
      = (if (deleteVisit s id true gw).visits = [] then none
         else some ((deleteVisit s id true gw).visits.map serialize)) := by
  have hv : (deleteVisit s id true gw).visits = s.visits.filter (fun v => v.id ≠ id) := rfl
  refine ⟨hv, ?_, ?_, ?_, ?_⟩
  · intro v
    rw [hv, List.mem_filter]
    simp
  · rw [hv]
    exact List.filter_sublist _
  · rw [hv, List.filter_eq_self]
    simp
  · rw [hv]
    show (if (s.visits.filter (fun v => v.id ≠ id)).length = 0 then none
        else some ((s.visits.filter (fun v => v.id ≠ id)).map serialize)) = _
    by_cases hnil : s.visits.filter (fun v => v.id ≠ id) = []
    · rw [hnil]; rfl
    · rw [if_neg hnil, if_neg (by simpa [List.length_eq_zero] using hnil)]

theorem handleSubmit_of_local (s : Store) (form : Form) (now recordedAt : Int) (gw : Gateway)
    (v : Visit) (hv : newVisit form now recordedAt = some v)
    (hlocal : s.googleScriptUrl = [] ∨ gw.post = Reply.refused ∨ gw.post = Reply.failure) :
    handleSubmit s form now recordedAt gw
      = { (callGoogleScript s (Request.addVisit v) gw).1 with
          visits := v :: s.visits, cache := some ((v :: s.visits).map serialize) } := by
  have hl := (callGoogleScript_local s (Request.addVisit v) gw hlocal).1
  unfold handleSubmit
  rw [hv]
  simp only [hl, Bool.false_eq_true, if_false]

/-- C17: for every store state and every accepted submission applied locally
(no gateway URL, or the gateway refused or could not be reached), the new
record list is the created record followed by the previous records in their
order; the created record is pending and carries the trimmed registration
number; and the local cache holds the new list. -/
theorem handleSubmit_local (s : Store) (form : Form) (now recordedAt : Int) (gw : Gateway)
    (v : Visit) (hv : newVisit form now recordedAt = some v)
    (hlocal : s.googleScriptUrl = [] ∨ gw.post = Reply.refused ∨ gw.post = Reply.failure) :
    (handleSubmit s form now recordedAt gw).visits = v :: s.visits ∧
    v.completed = false ∧ v.regNumber = trim form.regNumber ∧
    (handleSubmit s form now recordedAt gw).cache = some ((v :: s.visits).map serialize) := by
  obtain ⟨vd, nd, _, _, _, _, hveq⟩ := newVisit_some form now recordedAt v hv
  have hs := handleSubmit_of_local s form now recordedAt gw v hv hlocal
  refine ⟨by rw [hs], by rw [hveq], by rw [hveq], by rw [hs]⟩

/-- Witness of C17: the sample form submitted to the sample store while the
gateway cannot be reached. -/
theorem handleSubmit_local_witness :
    (newVisit sampleForm 99 100 = some sampleSubmitted ∧
      (sampleStore.googleScriptUrl = [] ∨ unreachable.post = Reply.refused ∨
        unreachable.post = Reply.failure)) ∧
    ((handleSubmit sampleStore sampleForm 99 100 unreachable).visits
        = sampleSubmitted :: sampleStore.visits ∧
      sampleSubmitted.completed = false ∧
      sampleSubmitted.regNumber = trim sampleForm.regNumber ∧
      (handleSubmit sampleStore sampleForm 99 100 unreachable).cache
        = some ((sampleSubmitted :: sampleStore.visits).map serialize)) :=
  ⟨⟨by decide, Or.inr (Or.inr rfl)⟩,
   handleSubmit_local sampleStore sampleForm 99 100 unreachable sampleSubmitted (by decide)
     (Or.inr (Or.inr rfl))⟩

theorem toggleCompleted_found (s : Store) (id now : Int) (gw : Gateway) (r : Visit)
    (h : s.visits.find? (fun v => v.id = id) = some r) :
    (toggleCompleted s id now gw).visits
      = s.visits.map (fun v => if v.id = id then toggledVisit r now else v) ∧
    (toggleCompleted s id now gw).cache
      = some ((s.visits.map (fun v => if v.id = id then toggledVisit r now else v)).map
          serialize) := by
  unfold toggleCompleted
  rw [h]
  exact ⟨rfl, rfl⟩

theorem toggleCompleted_not_found (s : Store) (id now : Int) (gw : Gateway)
    (h : s.visits.find? (fun v => v.id = id) = none) : toggleCompleted s id now gw = s := by
  unfold toggleCompleted
  rw [h]

theorem find?_id_replace (l : List Visit) (id : Int) (r u : Visit)
    (h : l.find? (fun v => v.id = id) = some r) (hu : u.id = id) :
    (l.map (fun v => if v.id = id then u else v)).find? (fun v => v.id = id) = some u := by
  induction l with
  | nil => simp at h
  | cons a l ih =>
    by_cases ha : a.id = id
    · simp [List.find?_cons, ha, hu]
    · have h' : l.find? (fun v => v.id = id) = some r := by
        simpa [List.find?_cons, ha] using h
      simp [List.find?_cons, ha, ih h']

theorem find?_id_some (l : List Visit) (id : Int) (r : Visit)
    (h : l.find? (fun v => v.id = id) = some r) : r ∈ l ∧ r.id = id := by
  refine ⟨List.mem_of_find?_eq_some h, ?_⟩
  have := List.find?_some h
  simpa using this

theorem eq_of_id_eq (l : List Visit) (h : (l.map (fun v => v.id)).Nodup) (a b : Visit)
    (ha : a ∈ l) (hb : b ∈ l) (hab : a.id = b.id) : a = b :=
  List.inj_on_of_nodup_map h ha hb hab

theorem toggledVisit_twice (r : Visit) (now1 now2 : Int) :
    toggledVisit (toggledVisit r now1) now2
      = { r with completedAt := if r.completed then some now2 else none } := by
  unfold toggledVisit
  cases hc : r.completed <;> simp [hc]

/-- C13, counterexample: a record that is completed, with completion time 5,
is after two toggles (at the times 10 and 20) completed with completion time
20, not 5. -/
theorem toggle_twice_changes_completedAt :
    completedStore.visits.find? (fun v => v.id = 1) = some completedVisit ∧
    completedVisit.completedAt = some 5 ∧
    (toggleCompleted (toggleCompleted completedStore 1 10 unreachable) 1 20
        unreachable).visits
      = [{ completedVisit with completedAt := some 20 }] ∧
    ¬ ∀ r ∈ (toggleCompleted (toggleCompleted completedStore 1 10 unreachable) 1 20
        unreachable).visits, r.completedAt = completedVisit.completedAt := by
  refine ⟨by decide, by decide, by decide, by decide⟩

/-- C13, amended: for every store state and every id for which `toggleCompleted`
finds a record, toggling that id twice in succession yields in its place the
record with every field as before except `completedAt`, which is null when the
record started pending and is the time of the second toggle when it started
completed; so `completed` always returns to its value, and `completedAt` does
when the record started pending with a null `completedAt`. -/
theorem toggle_twice (s : Store) (id now1 now2 : Int) (gw1 gw2 : Gateway) (r : Visit)
    (h : s.visits.find? (fun v => v.id = id) = some r) :
    ∃ r2, (toggleCompleted (toggleCompleted s id now1 gw1) id now2 gw2).visits.find?
        (fun v => v.id = id) = some r2 ∧
      r2 = { r with completedAt := if r.completed then some now2 else none } ∧
      r2.completed = r.completed ∧
      (r.completed = true ∨ r.completedAt ≠ none ∨ r2.completedAt = r.completedAt) := by
  have hid := (find?_id_some s.visits id r h).2
  have h1 := (toggleCompleted_found s id now1 gw1 r h).1
  have hf1 : (toggleCompleted s id now1 gw1).visits.find? (fun v => v.id = id)
      = some (toggledVisit r now1) := by
    rw [h1]
    exact find?_id_replace s.visits id r _ h hid
  have h2 := (toggleCompleted_found (toggleCompleted s id now1 gw1) id now2 gw2 _ hf1).1
  have hf2 : (toggleCompleted (toggleCompleted s id now1 gw1) id now2 gw2).visits.find?
      (fun v => v.id = id) = some (toggledVisit (toggledVisit r now1) now2) := by
    rw [h2]
    exact find?_id_replace _ id _ _ hf1 hid
  refine ⟨_, hf2, toggledVisit_twice r now1 now2, ?_, ?_⟩
  · rw [toggledVisit_twice]
  · rw [toggledVisit_twice]
    cases hc : r.completed
    · cases ha : r.completedAt
      · right; right; simp [hc, ha]
      · right; left; simp
    · left; rfl

/-- Witness of the amended C13: the pending record with id 3 of the sample store,
toggled at the times 10 and 20. -/
theorem toggle_twice_witness :
    sampleStore.visits.find? (fun v => v.id = 3) = some pendingSampleVisit ∧
    ∃ r2, (toggleCompleted (toggleCompleted sampleStore 3 10 unreachable) 3 20
        unreachable).visits.find? (fun v => v.id = 3) = some r2 ∧
      r2 = { pendingSampleVisit with
             completedAt := if pendingSampleVisit.completed then some 20 else none } ∧
      r2.completed = pendingSampleVisit.completed ∧
      (pendingSampleVisit.completed = true ∨ pendingSampleVisit.completedAt ≠ none ∨
        r2.completedAt = pendingSampleVisit.completedAt) :=
  ⟨by decide,
   toggle_twice sampleStore 3 10 20 unreachable unreachable pendingSampleVisit (by decide)⟩

/-! ## Invariants of the store -/

theorem handleSubmit_visits_cases (s : Store) (form : Form) (now recordedAt : Int)
    (gw : Gateway) :
    (handleSubmit s form now recordedAt gw).visits = s.visits ∨
    (∃ v, newVisit form now recordedAt = some v ∧
      (s.googleScriptUrl = [] ∨ gw.post = Reply.refused ∨ gw.post = Reply.failure) ∧
      (handleSubmit s form now recordedAt gw).visits = v :: s.visits) ∨
    (∃ raw, (gw.refetch = Reply.ok (some raw) ∨ s.cache = some raw) ∧
      (handleSubmit s form now recordedAt gw).visits = loadVisits raw) := by
  cases hv : newVisit form now recordedAt with
  | none =>
    left
    unfold handleSubmit
    rw [hv]
  | some v =>
    by_cases hu : s.googleScriptUrl = []
    · right; left
      exact ⟨v, rfl, Or.inl hu, by rw [handleSubmit_of_local s form now recordedAt gw v hv (Or.inl hu)]⟩
    · cases hp : gw.post with
      | failure =>
        right; left
        exact ⟨v, rfl, Or.inr (Or.inr rfl),
          by rw [handleSubmit_of_local s form now recordedAt gw v hv (Or.inr (Or.inr hp))]⟩
      | refused =>
        right; left
        exact ⟨v, rfl, Or.inr (Or.inl rfl),
          by rw [handleSubmit_of_local s form now recordedAt gw v hv (Or.inr (Or.inl hp))]⟩
      | ok o =>
        have hs : (handleSubmit s form now recordedAt gw).visits
            = (loadDataFromGoogle { s with requests := s.requests ++ [Request.addVisit v] }
                gw.refetch).visits := by
          unfold handleSubmit callGoogleScript
          rw [hv]
          simp [hu, hp]
        rw [hs]
        unfold loadDataFromGoogle
        simp only [hu, if_false]
        cases hr : gw.refetch with
        | failure =>
          cases hc : s.cache with
          | none => left; simp [hc]
          | some raw => right; right; exact ⟨raw, Or.inr rfl, by simp [hc]⟩
        | refused => left; rfl
        | ok o' =>
          cases o' with
          | none => left; rfl
          | some raw => right; right; exact ⟨raw, Or.inl rfl, rfl⟩

theorem handleSubmit_visits_paths (s : Store) (form : Form) (now recordedAt : Int)
    (gw : Gateway) :
    (handleSubmit s form now recordedAt gw).visits = s.visits ∨
    (∃ v, newVisit form now recordedAt = some v ∧
      (s.googleScriptUrl = [] ∨ gw.post = Reply.refused ∨ gw.post = Reply.failure) ∧
      (handleSubmit s form now recordedAt gw).visits = v :: s.visits) ∨
    (∃ v o raw, newVisit form now recordedAt = some v ∧ s.googleScriptUrl ≠ [] ∧
      gw.post = Reply.ok o ∧
      (gw.refetch = Reply.ok (some raw) ∨ (gw.refetch = Reply.failure ∧ s.cache = some raw)) ∧
      (handleSubmit s form now recordedAt gw).visits = loadVisits raw) := by
  cases hv : newVisit form now recordedAt with
  | none =>
    left
    unfold handleSubmit
    rw [hv]
  | some v =>
    by_cases hu : s.googleScriptUrl = []
    · right; left
      exact ⟨v, rfl, Or.inl hu, by rw [handleSubmit_of_local s form now recordedAt gw v hv (Or.inl hu)]⟩
    · cases hp : gw.post with
      | failure =>
        right; left
        exact ⟨v, rfl, Or.inr (Or.inr rfl),
          by rw [handleSubmit_of_local s form now recordedAt gw v hv (Or.inr (Or.inr hp))]⟩
      | refused =>
        right; left
        exact ⟨v, rfl, Or.inr (Or.inl rfl),
          by rw [handleSubmit_of_local s form now recordedAt gw v hv (Or.inr (Or.inl hp))]⟩
      | ok o =>
        have hs : (handleSubmit s form now recordedAt gw).visits
            = (loadDataFromGoogle { s with requests := s.requests ++ [Request.addVisit v] }
                gw.refetch).visits := by
          unfold handleSubmit callGoogleScript
          rw [hv]
          simp [hu, hp]
        rw [hs]
        unfold loadDataFromGoogle
        simp only [hu, if_false]
        cases hr : gw.refetch with
        | failure =>
          cases hc : s.cache with
          | none => left; simp [hc]
          | some raw =>
            right; right
            exact ⟨v, o, raw, rfl, hu, rfl, Or.inr ⟨rfl, rfl⟩, by simp [hc]⟩
        | refused => left; rfl
        | ok o' =>
          cases o' with
          | none => left; rfl
          | some raw =>
            right; right
            exact ⟨v, o, raw, rfl, hu, rfl, Or.inl rfl, rfl⟩

theorem toggleCompleted_visits_cases (s : Store) (id now : Int) (gw : Gateway) :
    toggleCompleted s id now gw = s ∧ (∀ v ∈ s.visits, v.id ≠ id) ∨
    ∃ r, r ∈ s.visits ∧ r.id = id ∧
      (toggleCompleted s id now gw).visits
        = s.visits.map (fun v => if v.id = id then toggledVisit r now else v) := by
  cases h : s.visits.find? (fun v => v.id = id) with
  | none =>
    left
    refine ⟨toggleCompleted_not_found s id now gw h, ?_⟩
    intro v hv
    have := List.find?_eq_none.1 h v hv
    simpa using this
  | some r =>
    right
    obtain ⟨hr, hid⟩ := find?_id_some s.visits id r h
    exact ⟨r, hr, hid, (toggleCompleted_found s id now gw r h).1⟩

theorem clearAllData_visits (s : Store) (c1 c2 : Bool) (gw : Gateway) :
    (clearAllData s c1 c2 gw).visits = s.visits ∨ (clearAllData s c1 c2 gw).visits = [] := by
  unfold clearAllData
  cases c1 <;> cases c2 <;> simp

theorem deleteVisit_visits (s : Store) (id : Int) (c : Bool) (gw : Gateway) :
    (deleteVisit s id c gw).visits = s.visits ∨
    (deleteVisit s id c gw).visits = s.visits.filter (fun v => v.id ≠ id) := by
  unfold deleteVisit
  cases c <;> simp

/-- C14, counterexample: the empty store satisfies the predicate, and after a
submission that the gateway accepts and whose re-fetch brings in a record
marked completed without completion time, the store holds that record. -/
theorem handleSubmit_breaks_completedAtIff :
    (∀ v ∈ emptyStore.visits, completedAtIff v) ∧
    newVisit sampleForm 99 100 = some sampleSubmitted ∧
    (handleSubmit emptyStore sampleForm 99 100 (acceptingWith [inconsistentRaw])).visits
      = [loadVisit inconsistentRaw] ∧
    ¬ ∀ v ∈ (handleSubmit emptyStore sampleForm 99 100
        (acceptingWith [inconsistentRaw])).visits, completedAtIff v := by
  refine ⟨by decide, by decide, by decide, by decide⟩

/-- C14, amended: the predicate "`completedAt` is non-null iff `completed` is
true" holds for the record `handleSubmit` creates and for the record
`toggleCompleted` produces; if it holds for every record of the store, it
still does after `toggleCompleted`, `deleteVisit` and `clearAllData`, and after
a `handleSubmit` that is rejected or applied locally; after a `handleSubmit`
that the gateway accepts it still does provided the records that
`loadDataFromGoogle` then brings in (the re-fetched list, or the cached list
when the re-fetch throws) satisfy it. -/
theorem completedAtIff_preserved (s : Store) (form : Form) (now recordedAt id now' : Int)
    (c c1 c2 : Bool) (gw : Gateway) (hinv : ∀ v ∈ s.visits, completedAtIff v) :
    (∀ v, newVisit form now recordedAt = some v → completedAtIff v) ∧
    (∀ v, completedAtIff (toggledVisit v now')) ∧
    ((newVisit form now recordedAt = none ∨ s.googleScriptUrl = [] ∨
        gw.post = Reply.refused ∨ gw.post = Reply.failure) →
      ∀ v ∈ (handleSubmit s form now recordedAt gw).visits, completedAtIff v) ∧
    ((∀ o raw, s.googleScriptUrl ≠ [] → gw.post = Reply.ok o →
        (gw.refetch = Reply.ok (some raw) ∨
          (gw.refetch = Reply.failure ∧ s.cache = some raw)) →
        ∀ v ∈ loadVisits raw, completedAtIff v) →
      ∀ v ∈ (handleSubmit s form now recordedAt gw).visits, completedAtIff v) ∧
    (∀ v ∈ (toggleCompleted s id now' gw).visits, completedAtIff v) ∧
    (∀ v ∈ (deleteVisit s id c gw).visits, completedAtIff v) ∧
    (∀ v ∈ (clearAllData s c1 c2 gw).visits, completedAtIff v) := by
  have hnew : ∀ v, newVisit form now recordedAt = some v → completedAtIff v := by
    intro v hv
    obtain ⟨vd, nd, _, _, _, _, hveq⟩ := newVisit_some form now recordedAt v hv
    rw [hveq]
    unfold completedAtIff
    simp
  have htog : ∀ v, completedAtIff (toggledVisit v now') := by
    intro v
    unfold completedAtIff toggledVisit
    cases v.completed <;> simp
  refine ⟨hnew, htog, ?_, ?_, ?_, ?_, ?_⟩
  · intro hpath v hv
    rcases handleSubmit_visits_paths s form now recordedAt gw with
      h | ⟨w, hw, _, h⟩ | ⟨w, o, raw, hw, hu, hp, _, _⟩
    · rw [h] at hv; exact hinv v hv
    · rw [h] at hv
      rcases List.mem_cons.1 hv with rfl | hv
      · exact hnew _ hw
      · exact hinv v hv
    · exfalso
      rcases hpath with hn | hu' | hp' | hp'
      · rw [hn] at hw; exact Option.noConfusion hw
      · exact hu hu'
      · rw [hp'] at hp; exact Reply.noConfusion hp
      · rw [hp'] at hp; exact Reply.noConfusion hp
  · intro hload v hv
    rcases handleSubmit_visits_paths s form now recordedAt gw with
      h | ⟨w, hw, _, h⟩ | ⟨w, o, raw, _, hu, hp, hr, h⟩
    · rw [h] at hv; exact hinv v hv
    · rw [h] at hv
      rcases List.mem_cons.1 hv with rfl | hv
      · exact hnew _ hw
      · exact hinv v hv
    · rw [h] at hv; exact hload o raw hu hp hr v hv
  · intro v hv
    rcases toggleCompleted_visits_cases s id now' gw with ⟨h, _⟩ | ⟨r, _, _, h⟩
    · rw [h] at hv; exact hinv v hv
    · rw [h] at hv
      obtain ⟨w, hw, rfl⟩ := List.mem_map.1 hv
      split_ifs
      · exact htog r
      · exact hinv w hw
  · intro v hv
    rcases deleteVisit_visits s id c gw with h | h
    · rw [h] at hv; exact hinv v hv
    · rw [h] at hv; exact hinv v (List.mem_filter.1 hv).1
  · intro v hv
    rcases clearAllData_visits s c1 c2 gw with h | h
    · rw [h] at hv; exact hinv v hv
    · rw [h] at hv; exact absurd hv (List.not_mem_nil v)

/-- Witness of the amended C14: the store holding one completed record; it is
toggled, a form is submitted while the gateway cannot be reached, and a form is
submitted to a gateway that accepts it and re-fetches the submitted record. -/
theorem completedAtIff_preserved_witness :
    (∀ v ∈ completedStore.visits, completedAtIff v) ∧
    (∀ v ∈ (toggleCompleted completedStore 1 10 unreachable).visits, completedAtIff v) ∧
    (∀ v ∈ (handleSubmit completedStore sampleForm 99 100 unreachable).visits,
      completedAtIff v) ∧
    (∀ v ∈ (handleSubmit completedStore sampleForm 99 100
        (acceptingWith [serialize sampleSubmitted])).visits, completedAtIff v) :=
  ⟨by decide,
   (completedAtIff_preserved completedStore sampleForm 99 100 1 10 true true true unreachable
      (by decide)).2.2.2.2.1,
   (completedAtIff_preserved completedStore sampleForm 99 100 1 10 true true true unreachable
      (by decide)).2.2.1 (Or.inr (Or.inr (Or.inr rfl))),
   (completedAtIff_preserved completedStore sampleForm 99 100 1 10 true true true
      (acceptingWith [serialize sampleSubmitted]) (by decide)).2.2.2.1
      (by
        intro o raw _ _ hraw
        rcases hraw with hraw | ⟨hraw, _⟩
        · have : raw = [serialize sampleSubmitted] := by
            have h2 : Reply.ok (some [serialize sampleSubmitted]) = Reply.ok (some raw) := hraw
            injection h2 with h3
            injection h3 with h4
            exact h4.symm
          rw [this]
          decide
        · have h2 : Reply.ok (some [serialize sampleSubmitted]) = Reply.failure := hraw
          exact Reply.noConfusion h2)⟩

theorem loadVisits_ids (raw : List RawVisit) :
    (loadVisits raw).map (fun v => v.id) = raw.map (fun r => r.id) := by
  unfold loadVisits
  rw [List.map_map]
  rfl

/-- C16, counterexample: a store whose only record has id 99 holds two records
with id 99 after a submission at clock reading 99 is applied locally; and a
store with pairwise distinct ids holds whatever ids the re-fetch brings in
after a submission the gateway accepts. -/
theorem handleSubmit_duplicates_id :
    (offlineStore.visits.map (fun v => v.id)).Nodup ∧
    newVisit sampleForm 99 100 = some sampleSubmitted ∧
    (handleSubmit offlineStore sampleForm 99 100 unreachable).visits.map (fun v => v.id)
      = [99, 99] ∧
    ¬ ((handleSubmit offlineStore sampleForm 99 100 unreachable).visits.map
        (fun v => v.id)).Nodup ∧
    (sampleStore.visits.map (fun v => v.id)).Nodup ∧
    ¬ ((handleSubmit sampleStore sampleForm 98 100 (acceptingWith duplicateRaws)).visits.map
        (fun v => v.id)).Nodup := by
  refine ⟨by decide, by decide, by decide, by decide, by decide, by decide⟩

/-- C16, amended: if the ids of the records of the store are pairwise distinct,
they still are after any `toggleCompleted`, any `deleteVisit` and
`clearAllData`, after a rejected `handleSubmit`, after an accepted
`handleSubmit` applied locally whose clock reading `Date.now()` is not the id
of a record of the list, and after a `handleSubmit` that the gateway accepts
provided the list `loadDataFromGoogle` then brings in (the re-fetched list, or
the cached list when the re-fetch throws) has pairwise distinct ids. -/
theorem ids_nodup_preserved (s : Store) (form : Form) (now recordedAt id now' : Int)
    (c c1 c2 : Bool) (gw : Gateway) (hnodup : (s.visits.map (fun v => v.id)).Nodup) :
    (newVisit form now recordedAt = none →
      ((handleSubmit s form now recordedAt gw).visits.map (fun v => v.id)).Nodup) ∧
    ((s.googleScriptUrl = [] ∨ gw.post = Reply.refused ∨ gw.post = Reply.failure) →
      now ∉ s.visits.map (fun v => v.id) →
      ((handleSubmit s form now recordedAt gw).visits.map (fun v => v.id)).Nodup) ∧
    (∀ o, s.googleScriptUrl ≠ [] → gw.post = Reply.ok o →
      (∀ raw, (gw.refetch = Reply.ok (some raw) ∨
          (gw.refetch = Reply.failure ∧ s.cache = some raw)) →
        (raw.map (fun r => r.id)).Nodup) →
      ((handleSubmit s form now recordedAt gw).visits.map (fun v => v.id)).Nodup) ∧
    ((toggleCompleted s id now' gw).visits.map (fun v => v.id)).Nodup ∧
    ((deleteVisit s id c gw).visits.map (fun v => v.id)).Nodup ∧
    ((clearAllData s c1 c2 gw).visits.map (fun v => v.id)).Nodup := by
  refine ⟨?_, ?_, ?_, ?_, ?_, ?_⟩
  · intro hn
    have hs : handleSubmit s form now recordedAt gw = s := by
      unfold handleSubmit
      rw [hn]
    rw [hs]; exact hnodup
  · intro hlocal hfresh
    rcases handleSubmit_visits_paths s form now recordedAt gw with
      h | ⟨w, hw, _, h⟩ | ⟨w, o, raw, _, hu, hp, _, _⟩
    · rw [h]; exact hnodup
    · rw [h, List.map_cons, List.nodup_cons]
      obtain ⟨vd, nd, _, _, _, _, hweq⟩ := newVisit_some form now recordedAt w hw
      have hid : w.id = now := by rw [hweq]
      rw [hid]
      exact ⟨hfresh, hnodup⟩
    · exfalso
      rcases hlocal with hu' | hp' | hp'
      · exact hu hu'
      · rw [hp'] at hp; exact Reply.noConfusion hp
      · rw [hp'] at hp; exact Reply.noConfusion hp
  · intro o hu hp hload
    rcases handleSubmit_visits_paths s form now recordedAt gw with
      h | ⟨w, _, hlocal, _⟩ | ⟨w, o', raw, _, _, _, hr, h⟩
    · rw [h]; exact hnodup
    · exfalso
      rcases hlocal with hu' | hp' | hp'
      · exact hu hu'
      · rw [hp'] at hp; exact Reply.noConfusion hp
      · rw [hp'] at hp; exact Reply.noConfusion hp
    · rw [h, loadVisits_ids]
      exact hload raw hr
  · rcases toggleCompleted_visits_cases s id now' gw with ⟨h, _⟩ | ⟨r, _, hid, h⟩
    · rw [h]; exact hnodup
    · have hmap : (toggleCompleted s id now' gw).visits.map (fun v => v.id)
          = s.visits.map (fun v => v.id) := by
        rw [h, List.map_map]
        apply List.map_congr_left
        intro v _
        by_cases hv : v.id = id
        · simp only [Function.comp, hv, if_true]
          exact hid
        · simp only [Function.comp, hv, if_false]
      rw [hmap]; exact hnodup
  · rcases deleteVisit_visits s id c gw with h | h
    · rw [h]; exact hnodup
    · rw [h]
      exact (List.Nodup.sublist ((List.filter_sublist s.visits).map _) hnodup)
  · rcases clearAllData_visits s c1 c2 gw with h | h
    · rw [h]; exact hnodup
    · rw [h]; exact List.nodup_nil

/-- Witness of the amended C16: the sample store; the sample form is submitted
at clock reading 99 while the gateway cannot be reached, and to a gateway that
accepts it and re-fetches one record; and the record with id 3 is toggled. -/
theorem ids_nodup_preserved_witness :
    (sampleStore.visits.map (fun v => v.id)).Nodup ∧
    ((handleSubmit sampleStore sampleForm 99 100 unreachable).visits.map
      (fun v => v.id)).Nodup ∧
    ((handleSubmit sampleStore sampleForm 99 100
      (acceptingWith [serialize sampleSubmitted])).visits.map (fun v => v.id)).Nodup ∧
    ((toggleCompleted sampleStore 3 10 unreachable).visits.map (fun v => v.id)).Nodup :=
  ⟨by decide,
   (ids_nodup_preserved sampleStore sampleForm 99 100 3 10 true true true unreachable
      (by decide)).2.1 (Or.inr (Or.inr rfl)) (by decide),
   (ids_nodup_preserved sampleStore sampleForm 99 100 3 10 true true true
      (acceptingWith [serialize sampleSubmitted]) (by decide)).2.2.1 none (by decide) rfl
      (by
        intro raw hraw
        rcases hraw with hraw | ⟨hraw, _⟩
        · have : raw = [serialize sampleSubmitted] := by
            have h2 : Reply.ok (some [serialize sampleSubmitted]) = Reply.ok (some raw) := hraw
            injection h2 with h3
            injection h3 with h4
            exact h4.symm
          rw [this]
          decide
        · have h2 : Reply.ok (some [serialize sampleSubmitted]) = Reply.failure := hraw
          exact Reply.noConfusion h2),
   (ids_nodup_preserved sampleStore sampleForm 99 100 3 10 true true true unreachable
      (by decide)).2.2.2.1⟩

/-- C18: for every store state with pairwise distinct ids and every id,
`toggleCompleted(id)` keeps the length and the order of the record list, leaves
every record with another id as it is, and replaces the record with that id by
one that differs from it in `completed` and `completedAt` only; when no record
has the id, the whole store (record list, local cache, gateway requests) is
unchanged. -/
theorem toggleCompleted_frame (s : Store) (id now : Int) (gw : Gateway)
    (hnodup : (s.visits.map (fun v => v.id)).Nodup) :
    (toggleCompleted s id now gw).visits.length = s.visits.length ∧
    List.Forall₂
      (fun v v' => (v.id ≠ id ∧ v' = v) ∨ (v.id = id ∧ v' = toggledVisit v now))
      s.visits (toggleCompleted s id now gw).visits ∧
    (∀ v : Visit, (toggledVisit v now).id = v.id ∧
      (toggledVisit v now).regNumber = v.regNumber ∧
      (toggledVisit v now).visitDate = v.visitDate ∧
      (toggledVisit v now).nextVisitDate = v.nextVisitDate ∧
      (toggledVisit v now).tabletDays = v.tabletDays ∧
      (toggledVisit v now).recordedAt = v.recordedAt) ∧
    ((∃ v ∈ s.visits, v.id = id) ∨
      (toggleCompleted s id now gw = s ∧
        (toggleCompleted s id now gw).visits = s.visits ∧
        (toggleCompleted s id now gw).cache = s.cache ∧
        (toggleCompleted s id now gw).requests = s.requests)) := by
  have hfields : ∀ v : Visit, (toggledVisit v now).id = v.id ∧
      (toggledVisit v now).regNumber = v.regNumber ∧
      (toggledVisit v now).visitDate = v.visitDate ∧
      (toggledVisit v now).nextVisitDate = v.nextVisitDate ∧
      (toggledVisit v now).tabletDays = v.tabletDays ∧
      (toggledVisit v now).recordedAt = v.recordedAt :=
    fun v => ⟨rfl, rfl, rfl, rfl, rfl, rfl⟩
  rcases toggleCompleted_visits_cases s id now gw with ⟨h, hnone⟩ | ⟨r, hr, hid, h⟩
  · refine ⟨by rw [h], ?_, hfields, Or.inr ⟨h, by rw [h], by rw [h], by rw [h]⟩⟩
    rw [h, List.forall₂_same]
    intro v hv
    exact Or.inl ⟨hnone v hv, rfl⟩
  · refine ⟨by rw [h, List.length_map], ?_, hfields, Or.inl ⟨r, hr, hid⟩⟩
    rw [h, List.forall₂_map_right_iff, List.forall₂_same]
    intro v hv
    by_cases hvid : v.id = id
    · right
      have hvr : v = r := eq_of_id_eq s.visits hnodup v r hv hr (by rw [hvid, hid])
      refine ⟨hvid, ?_⟩
      rw [if_pos hvid, hvr]
    · left
      exact ⟨hvid, by rw [if_neg hvid]⟩

/-- Witness of C18: the record with id 3 of the sample store is toggled. -/
theorem toggleCompleted_frame_witness :
    (sampleStore.visits.map (fun v => v.id)).Nodup ∧
    (toggleCompleted sampleStore 3 10 unreachable).visits.length = sampleStore.visits.length ∧
    List.Forall₂
      (fun v v' => (v.id ≠ 3 ∧ v' = v) ∨ (v.id = 3 ∧ v' = toggledVisit v 10))
      sampleStore.visits (toggleCompleted sampleStore 3 10 unreachable).visits :=
  ⟨by decide,
   (toggleCompleted_frame sampleStore 3 10 unreachable (by decide)).1,
   (toggleCompleted_frame sampleStore 3 10 unreachable (by decide)).2.1⟩

/-! ## Rollups after a local submission -/

theorem trim_trim (s : JSString) : trim (trim s) = trim s := by
  have h1 : List.dropWhile isJSWhitespace (trim s) = trim s := by
    rw [trim_eq_rdropWhile, List.dropWhile_eq_self_iff]
    intro hl
    have hpre : List.rdropWhile isJSWhitespace (List.dropWhile isJSWhitespace s)
        <+: List.dropWhile isJSWhitespace s := List.rdropWhile_prefix _ _
    have hl' : 0 < (List.dropWhile isJSWhitespace s).length :=
      lt_of_lt_of_le hl hpre.length_le
    have ha := (List.dropWhile_eq_self_iff (p := isJSWhitespace)
      (l := List.dropWhile isJSWhitespace s)).1 (List.dropWhile_idempotent _ s) hl'
    have hget : (List.rdropWhile isJSWhitespace (List.dropWhile isJSWhitespace s)).get ⟨0, hl⟩
        = (List.dropWhile isJSWhitespace s).get ⟨0, hl'⟩ := by
      simp only [List.get_eq_getElem]
      exact hpre.getElem hl
    rw [hget]
    exact ha
  rw [trim_eq_rdropWhile (trim s), h1, trim_eq_rdropWhile s, List.rdropWhile_idempotent]

theorem canon_trim (s : JSString) : canon (trim s) = canon s := by
  unfold canon
  rw [trim_trim]

theorem patientTabletData_get?_eq (visits : List Visit) (k : JSString) :
    (patientTabletData visits).get? k
      = ((recordsOf k visits).foldl rollupStep none).map
          (fun p => { p with visits := sortVisits p.visits }) := by
  rw [patientTabletData_get?, foldl_addVisit_get?]
  rfl

theorem patientTabletData_get?_congr (visits visits' : List Visit) (k : JSString)
    (h : recordsOf k visits' = recordsOf k visits) :
    (patientTabletData visits').get? k = (patientTabletData visits).get? k := by
  rw [patientTabletData_get?_eq, patientTabletData_get?_eq, h]

theorem patientTabletData_get?_nil (visits : List Visit) (k : JSString)
    (h : recordsOf k visits = []) : (patientTabletData visits).get? k = none := by
  rw [patientTabletData_get?_eq, h]
  rfl

theorem patientTabletData_get?_cons (visits : List Visit) (k : JSString) (v0 : Visit)
    (g : List Visit) (h : recordsOf k visits = v0 :: g) :
    ∃ p, (patientTabletData visits).get? k = some p ∧
      p.totalTabletDays = ((v0 :: g).map (fun v => v.tabletDays)).sum ∧
      p.visits = sortVisits (v0 :: g) := by
  rw [patientTabletData_get?, foldl_addVisit_get?_cons visits k v0 g h]
  refine ⟨_, rfl, ?_, ?_⟩
  · show ((v0 :: g).foldl accumulate (newPatientData v0)).totalTabletDays = _
    rw [foldl_accumulate_totalTabletDays]
    simp [newPatientData]
  · show sortVisits ((v0 :: g).foldl accumulate (newPatientData v0)).visits = _
    rw [foldl_accumulate_visits]
    rfl

theorem getPatientTotalTablets_eq_sum (visits : List Visit) (regNumber : JSString) :
    getPatientTotalTablets visits regNumber
      = ((recordsOf (canon regNumber) visits).map (fun v => v.tabletDays)).sum := by
  unfold getPatientTotalTablets
  cases hg : recordsOf (canon regNumber) visits with
  | nil => rw [patientTabletData_get?_nil visits _ hg]; rfl
  | cons v0 g =>
    obtain ⟨p, hp, ht, _⟩ := patientTabletData_get?_cons visits _ v0 g hg
    rw [hp]
    exact ht

theorem rollupVisitCount_eq (visits : List Visit) (k : JSString) :
    rollupVisitCount visits k = (recordsOf k visits).length := by
  unfold rollupVisitCount
  cases hg : recordsOf k visits with
  | nil => rw [patientTabletData_get?_nil visits _ hg]; rfl
  | cons v0 g =>
    obtain ⟨p, hp, _, hvis⟩ := patientTabletData_get?_cons visits _ v0 g hg
    rw [hp]
    show p.visits.length = _
    rw [hvis]
    exact List.length_insertionSort _ _

theorem sortVisits_sorted (l : List Visit) :
    (sortVisits l).Sorted (fun a b => a.visitDate ≤ b.visitDate) := by
  haveI : IsTotal Visit (fun a b => a.visitDate ≤ b.visitDate) :=
    ⟨fun a b => le_total a.visitDate b.visitDate⟩
  haveI : IsTrans Visit (fun a b => a.visitDate ≤ b.visitDate) :=
    ⟨fun a b c hab hbc => le_trans hab hbc⟩
  exact List.sorted_insertionSort _ _

/-- C19: for every store state and every accepted submission for registration
number `R` that is applied locally, the rollups recomputed from the new record
list give the patient `canon R` a `totalTabletDays` equal to the previous
`getPatientTotalTablets(R)` plus the new visit's `tabletDays`, and a `visits`
list that contains the new visit, is one element longer than before and is
ascending by `visitDate`; the rollup of every other key is what it was. -/
theorem handleSubmit_rollup (s : Store) (form : Form) (now recordedAt : Int) (gw : Gateway)
    (v : Visit) (hv : newVisit form now recordedAt = some v)
    (hlocal : s.googleScriptUrl = [] ∨ gw.post = Reply.refused ∨ gw.post = Reply.failure) :
    ∃ p, (patientTabletData (handleSubmit s form now recordedAt gw).visits).get?
        (canon form.regNumber) = some p ∧
      p.totalTabletDays = getPatientTotalTablets s.visits form.regNumber + v.tabletDays ∧
      p.visits.length = rollupVisitCount s.visits (canon form.regNumber) + 1 ∧
      v ∈ p.visits ∧
      p.visits.Sorted (fun a b => a.visitDate ≤ b.visitDate) ∧
      ∀ k, k ≠ canon form.regNumber →
        (patientTabletData (handleSubmit s form now recordedAt gw).visits).get? k
          = (patientTabletData s.visits).get? k := by
  obtain ⟨vd, nd, _, _, _, _, hveq⟩ := newVisit_some form now recordedAt v hv
  have hreg : canon v.regNumber = canon form.regNumber := by
    have : v.regNumber = trim form.regNumber := by rw [hveq]
    rw [this, canon_trim]
  have hvis : (handleSubmit s form now recordedAt gw).visits = v :: s.visits := by
    rw [handleSubmit_of_local s form now recordedAt gw v hv hlocal]
  rw [hvis]
  have hg : recordsOf (canon form.regNumber) (v :: s.visits)
      = v :: recordsOf (canon form.regNumber) s.visits := by
    unfold recordsOf
    rw [List.filter_cons_of_pos (by simpa using hreg)]
  obtain ⟨p, hp, ht, hpv⟩ := patientTabletData_get?_cons (v :: s.visits) _ v _ hg
  refine ⟨p, hp, ?_, ?_, ?_, ?_, ?_⟩
  · rw [ht, getPatientTotalTablets_eq_sum, List.map_cons, List.sum_cons]
    ring
  · rw [hpv, rollupVisitCount_eq]
    show (sortVisits _).length = _
    unfold sortVisits
    rw [List.length_insertionSort, List.length_cons]
  · rw [hpv]
    unfold sortVisits
    exact (List.perm_insertionSort _ _).mem_iff.2 (List.mem_cons_self _ _)
  · rw [hpv]
    exact sortVisits_sorted _
  · intro k hk
    apply patientTabletData_get?_congr
    unfold recordsOf
    rw [List.filter_cons_of_neg]
    rw [hreg]
    simpa using fun h => hk h.symm

/-- Witness of C19: the store holds the first visit of the patient (59 tablet
days) and the second (61 tablet days) is submitted without gateway, giving 120
tablet days and 2 visits. -/
theorem handleSubmit_rollup_witness :
    (newVisit secondForm 101 102 = some secondSubmitted ∧
      getPatientTotalTablets firstVisitStore.visits secondForm.regNumber = 59 ∧
      secondSubmitted.tabletDays = 61 ∧
      rollupVisitCount firstVisitStore.visits (canon secondForm.regNumber) = 1) ∧
    ∃ p, (patientTabletData (handleSubmit firstVisitStore secondForm 101 102
        unreachable).visits).get? (canon secondForm.regNumber) = some p ∧
      p.totalTabletDays
        = getPatientTotalTablets firstVisitStore.visits secondForm.regNumber
          + secondSubmitted.tabletDays ∧
      p.visits.length = rollupVisitCount firstVisitStore.visits (canon secondForm.regNumber) + 1 ∧
      secondSubmitted ∈ p.visits ∧
      p.visits.Sorted (fun a b => a.visitDate ≤ b.visitDate) ∧
      ∀ k, k ≠ canon secondForm.regNumber →
        (patientTabletData (handleSubmit firstVisitStore secondForm 101 102
          unreachable).visits).get? k
          = (patientTabletData firstVisitStore.visits).get? k :=
  ⟨by decide,
   handleSubmit_rollup firstVisitStore secondForm 101 102 unreachable secondSubmitted
     (by decide) (Or.inl rfl)⟩

/-! ## Aggregates after deleting a patient's only record -/

theorem distinctPatients_remove (l : List Visit) (r : Visit)
    (hsole : ∀ v ∈ l, canon v.regNumber = canon r.regNumber → v = r) :
    distinctPatients (l.filter (fun v => decide (v ≠ r))) + (if r ∈ l then 1 else 0)
      = distinctPatients l := by
  by_cases hr : r ∈ l
  · rw [if_pos hr]
    unfold distinctPatients
    have hnot : canon r.regNumber
        ∉ ((l.filter (fun v => decide (v ≠ r))).map (fun v => canon v.regNumber)).toFinset := by
      intro hmem
      rw [List.mem_toFinset] at hmem
      obtain ⟨v, hv, hk⟩ := List.mem_map.1 hmem
      obtain ⟨hvl, hne⟩ := List.mem_filter.1 hv
      exact (by simpa using hne : v ≠ r) (hsole v hvl hk)
    have hins : (l.map (fun v => canon v.regNumber)).toFinset
        = insert (canon r.regNumber)
            ((l.filter (fun v => decide (v ≠ r))).map (fun v => canon v.regNumber)).toFinset := by
      ext x
      simp only [List.mem_toFinset, Finset.mem_insert, List.mem_map, List.mem_filter]
      constructor
      · rintro ⟨v, hv, rfl⟩
        by_cases hvr : v = r
        · left; rw [hvr]
        · right; exact ⟨v, ⟨hv, by simpa using hvr⟩, rfl⟩
      · rintro (rfl | ⟨v, ⟨hv, _⟩, rfl⟩)
        · exact ⟨r, hr, rfl⟩
        · exact ⟨v, hv, rfl⟩
    rw [hins, Finset.card_insert_of_not_mem hnot]
  · rw [if_neg hr, Nat.add_zero]
    have : l.filter (fun v => decide (v ≠ r)) = l := by
      rw [List.filter_eq_self]
      intro v hv
      have : v ≠ r := fun e => hr (e ▸ hv)
      simpa using this
    rw [this]

theorem filter_id_ne_eq (l : List Visit) (r : Visit) (hr : r ∈ l)
    (hnodup : (l.map (fun v => v.id)).Nodup) :
    l.filter (fun v => v.id ≠ r.id) = l.filter (fun v => decide (v ≠ r)) := by
  apply List.filter_congr
  intro v hv
  by_cases hvr : v = r
  · subst hvr; simp
  · have : v.id ≠ r.id := fun h => hvr (eq_of_id_eq l hnodup v r hv hr h)
    simp [hvr, this]

/-- C20: for every store with pairwise distinct ids and every record `r` of it
that is the only one with its canonicalized registration number `k`: after a
confirmed `deleteVisit(r.id)` the record list is the previous one without `r`,
the recomputed `patientTabletData` has no entry for `k`,
`uniquePatientCounts.total` is one less than before, every date and month count
is the previous one less `r` itself where `r` was counted (pending, in that
bucket), and `getRegNumberSuggestions` returns `k` for no query. -/
theorem deleteVisit_sole_record (tz : Int) (s : Store) (r : Visit) (gw : Gateway)
    (hr : r ∈ s.visits) (hnodup : (s.visits.map (fun v => v.id)).Nodup)
    (hsole : ∀ v ∈ s.visits, canon v.regNumber = canon r.regNumber → v = r) :
    (deleteVisit s r.id true gw).visits = s.visits.filter (fun v => decide (v ≠ r)) ∧
    (patientTabletData (deleteVisit s r.id true gw).visits).get? (canon r.regNumber) = none ∧
    (uniquePatientCounts tz (deleteVisit s r.id true gw).visits).total + 1
      = (uniquePatientCounts tz s.visits).total ∧
    (∀ d, getUniquePatientsForDate tz (deleteVisit s r.id true gw).visits d
        + (if r ∈ pendingOnDay tz d s.visits then 1 else 0)
      = getUniquePatientsForDate tz s.visits d) ∧
    (∀ m, getUniquePatientsForMonth tz (deleteVisit s r.id true gw).visits m
        + (if r ∈ pendingInMonth tz m s.visits then 1 else 0)
      = getUniquePatientsForMonth tz s.visits m) ∧
    ∀ query, canon r.regNumber
      ∉ getRegNumberSuggestions (patientTabletData (deleteVisit s r.id true gw).visits) query := by
  have hvis : (deleteVisit s r.id true gw).visits
      = s.visits.filter (fun v => decide (v ≠ r)) := by
    show s.visits.filter (fun v => v.id ≠ r.id) = _
    exact filter_id_ne_eq s.visits r hr hnodup
  have hnone : ∀ v ∈ s.visits.filter (fun v => decide (v ≠ r)),
      canon v.regNumber ≠ canon r.regNumber := by
    intro v hv hk
    obtain ⟨hvl, hne⟩ := List.mem_filter.1 hv
    exact (by simpa using hne : v ≠ r) (hsole v hvl hk)
  rw [hvis]
  refine ⟨rfl, ?_, ?_, ?_, ?_, ?_⟩
  · apply patientTabletData_get?_nil
    unfold recordsOf
    rw [List.filter_eq_nil_iff]
    intro v hv
    simpa using hnone v hv
  · rw [uniquePatientCounts_total_eq, uniquePatientCounts_total_eq]
    have := distinctPatients_remove s.visits r hsole
    rw [if_pos hr] at this
    exact this
  · intro d
    rw [getUniquePatientsForDate_eq, getUniquePatientsForDate_eq]
    have hcomm : pendingOnDay tz d (s.visits.filter (fun v => decide (v ≠ r)))
        = (pendingOnDay tz d s.visits).filter (fun v => decide (v ≠ r)) := by
      unfold pendingOnDay
      rw [List.filter_filter, List.filter_filter]
      apply List.filter_congr
      intro v _
      exact Bool.and_comm _ _
    rw [hcomm]
    apply distinctPatients_remove
    intro v hv
    exact hsole v (List.mem_filter.1 hv).1
  · intro m
    rw [getUniquePatientsForMonth_eq, getUniquePatientsForMonth_eq]
    have hcomm : pendingInMonth tz m (s.visits.filter (fun v => decide (v ≠ r)))
        = (pendingInMonth tz m s.visits).filter (fun v => decide (v ≠ r)) := by
      unfold pendingInMonth
      rw [List.filter_filter, List.filter_filter]
      apply List.filter_congr
      intro v _
      exact Bool.and_comm _ _
    rw [hcomm]
    apply distinctPatients_remove
    intro v hv
    exact hsole v (List.mem_filter.1 hv).1
  · intro query hmem
    have hkey : canon r.regNumber ∈ JSObject.insertionKeys
        (patientTabletData (s.visits.filter (fun v => decide (v ≠ r)))) := by
      unfold getRegNumberSuggestions at hmem
      split_ifs at hmem with hq
      · exact absurd hmem (List.not_mem_nil _)
      · exact (mem_objectKeys _ _).1 (List.mem_filter.1 (List.mem_of_mem_take hmem)).1
    rw [insertionKeys_patientTabletData, mem_firstAppearances] at hkey
    obtain ⟨v, hv, hk⟩ := List.mem_map.1 hkey
    exact hnone v hv hk

/-- Witness of C20: the only record of the second patient is deleted from the
sample store. -/
theorem deleteVisit_sole_record_witness :
    (pendingSampleVisit ∈ sampleStore.visits ∧
      (sampleStore.visits.map (fun v => v.id)).Nodup ∧
      ∀ v ∈ sampleStore.visits,
        canon v.regNumber = canon pendingSampleVisit.regNumber → v = pendingSampleVisit) ∧
    (patientTabletData (deleteVisit sampleStore pendingSampleVisit.id true
        unreachable).visits).get? (canon pendingSampleVisit.regNumber) = none ∧
    (uniquePatientCounts 19800000 (deleteVisit sampleStore pendingSampleVisit.id true
        unreachable).visits).total + 1
      = (uniquePatientCounts 19800000 sampleStore.visits).total :=
  ⟨by decide,
   (deleteVisit_sole_record 19800000 sampleStore pendingSampleVisit unreachable (by decide)
      (by decide) (by decide)).2.1,
   (deleteVisit_sole_record 19800000 sampleStore pendingSampleVisit unreachable (by decide)
      (by decide) (by decide)).2.2.1⟩

/-! ## Month view and memoized date counts -/

theorem localDay_setHoursZero (tz t : Int) : localDay tz (setHoursZero tz t) = localDay tz t := by
  unfold setHoursZero
  generalize localDay tz t = d
  unfold localDay msPerDay
  omega

theorem setHoursZero_eq_iff (tz a b : Int) :
    setHoursZero tz a = setHoursZero tz b ↔ localDay tz a = localDay tz b := by
  unfold setHoursZero
  generalize localDay tz a = x
  generalize localDay tz b = y
  unfold msPerDay
  omega

theorem patientsForDate_eq (tz : Int) (visits : List Visit) (t : Int) :
    visits.filter (fun visit =>
        decide (setHoursZero tz visit.nextVisitDate = setHoursZero tz t) && !visit.completed)
      = pendingOnDay tz (setHoursZero tz t) visits := by
  unfold pendingOnDay
  apply List.filter_congr
  intro v _
  rw [localDay_setHoursZero, Bool.and_comm]
  congr 1
  exact decide_eq_decide.2 (setHoursZero_eq_iff tz _ _)

/-- C21: for every record list, month index `m` and day descriptor that
`getMonthDatesDetailed(m)` returns, the `count` of the descriptor equals
`getUniquePatientsForDate(descriptor.date)`. -/
theorem descriptor_count_eq_byDate (tz year : Int) (visits : List Visit) (m : Nat)
    (desc : DayDescriptor) (h : desc ∈ getMonthDatesDetailed tz year visits m) :
    desc.count = getUniquePatientsForDate tz visits desc.date := by
  unfold getMonthDatesDetailed at h
  obtain ⟨i, _, rfl⟩ := List.mem_map.1 h
  simp only []
  rw [getUniquePatientsForDate_eq, length_foldl_setAdd, patientsForDate_eq]
  rfl

/-- Witness of C21: the descriptor of 15 February 2026 for the sample records,
with one pending patient. -/
theorem descriptor_count_eq_byDate_witness :
    ({ date := 1771093800000, day := 15, count := 1,
       patients := [pendingSampleVisit] } : DayDescriptor)
      ∈ getMonthDatesDetailed 19800000 2026 sampleVisits 1 ∧
    (1 : Nat) = getUniquePatientsForDate 19800000 sampleVisits 1771093800000 :=
  ⟨by decide,
   descriptor_count_eq_byDate 19800000 2026 sampleVisits 1
     { date := 1771093800000, day := 15, count := 1, patients := [pendingSampleVisit] }
     (by decide)⟩

/-! ## Displayed number, first and last visit of a rollup -/

theorem head?_filter_eq_find? {α : Type} (p : α → Bool) (l : List α) :
    (l.filter p).head? = l.find? p := by
  induction l with
  | nil => rfl
  | cons a l ih =>
    cases hpa : p a
    · rw [List.filter_cons_of_neg (by simp [hpa]), List.find?_cons_of_neg _ (by simp [hpa]), ih]
    · rw [List.filter_cons_of_pos hpa, List.find?_cons_of_pos _ hpa]
      rfl

theorem rollup_regNumber (visits : List Visit) (k : JSString) (v0 : Visit) (g : List Visit)
    (hg : recordsOf k visits = v0 :: g) :
    ∃ p, (patientTabletData visits).get? k = some p ∧ p.regNumber = v0.regNumber ∧
      p.firstVisitDate = ((v0 :: g).foldl accumulate (newPatientData v0)).firstVisitDate ∧
      p.lastVisitDate = ((v0 :: g).foldl accumulate (newPatientData v0)).lastVisitDate ∧
      p.visits = sortVisits (v0 :: g) := by
  rw [patientTabletData_get?, foldl_addVisit_get?_cons visits k v0 g hg]
  refine ⟨_, rfl, ?_, rfl, rfl, ?_⟩
  · show ((v0 :: g).foldl accumulate (newPatientData v0)).regNumber = _
    rw [foldl_accumulate_regNumber]
    rfl
  · show sortVisits ((v0 :: g).foldl accumulate (newPatientData v0)).visits = _
    rw [foldl_accumulate_visits]
    rfl

/-- C22: for every record list and every canonicalized registration number `k`
occurring in it, the `regNumber` of the rollup of `k` is the original
`regNumber` of the first record of the list whose canonicalized number is `k`;
canonicalizing it gives back `k`, and `openPatientHistory` of it selects that
rollup. -/
theorem rollup_displays_first_seen (visits : List Visit) (k : JSString)
    (h : ∃ v ∈ visits, canon v.regNumber = k) :
    ∃ p v0, (patientTabletData visits).get? k = some p ∧
      visits.find? (fun v => canon v.regNumber = k) = some v0 ∧
      p.regNumber = v0.regNumber ∧ canon p.regNumber = k ∧
      openPatientHistory visits p.regNumber = some p := by
  have hne := recordsOf_ne_nil visits k h
  cases hg : recordsOf k visits with
  | nil => exact absurd hg hne
  | cons v0 g =>
    obtain ⟨p, hp, hreg, _, _, _⟩ := rollup_regNumber visits k v0 g hg
    have hv0 : v0 ∈ recordsOf k visits := by rw [hg]; exact List.mem_cons_self _ _
    have hk : canon v0.regNumber = k := ((mem_recordsOf visits k v0).1 hv0).2
    have hfind : visits.find? (fun v => canon v.regNumber = k) = some v0 := by
      have := head?_filter_eq_find? (fun v : Visit => decide (canon v.regNumber = k)) visits
      rw [← this]
      have hg' : visits.filter (fun v => decide (canon v.regNumber = k)) = v0 :: g := hg
      rw [hg']
      rfl
    have hcanon : canon p.regNumber = k := by rw [hreg, hk]
    refine ⟨p, v0, hp, hfind, hreg, hcanon, ?_⟩
    unfold openPatientHistory
    rw [hcanon, hp]

/-- Witness of C22: the first patient of the sample records, first entered in
lower case with a leading blank. -/
theorem rollup_displays_first_seen_witness :
    (∃ v ∈ sampleVisits, canon v.regNumber = "2026/ABC/0001".toList) ∧
    ∃ p v0, (patientTabletData sampleVisits).get? "2026/ABC/0001".toList = some p ∧
      sampleVisits.find? (fun v => canon v.regNumber = "2026/ABC/0001".toList) = some v0 ∧
      p.regNumber = v0.regNumber ∧ canon p.regNumber = "2026/ABC/0001".toList ∧
      openPatientHistory sampleVisits p.regNumber = some p :=
  ⟨by decide, rollup_displays_first_seen sampleVisits "2026/ABC/0001".toList (by decide)⟩

theorem get?_eq_some_of_mem {κ α : Type} [DecidableEq κ] (o : JSObject κ α) (k : κ) (v : α)
    (hnodup : (JSObject.insertionKeys o).Nodup) (h : (k, v) ∈ o) : o.get? k = some v := by
  induction o with
  | nil => exact absurd h (List.not_mem_nil _)
  | cons e o ih =>
    obtain ⟨k0, v0⟩ := e
    have hnd : k0 ∉ JSObject.insertionKeys o ∧ (JSObject.insertionKeys o).Nodup := by
      simpa [JSObject.insertionKeys] using hnodup
    rcases List.mem_cons.1 h with heq | hmem
    · have h1 : k = k0 := (Prod.mk.inj heq).1
      have h2 : v = v0 := (Prod.mk.inj heq).2
      subst h1
      subst h2
      simp [JSObject.get?]
    · have hk : k0 ≠ k := by
        intro e
        apply hnd.1
        rw [e]
        exact List.mem_map.2 ⟨(k, v), hmem, rfl⟩
      simp only [JSObject.get?, hk, if_false]
      exact ih hnd.2 hmem

theorem mem_of_get?_eq_some {κ α : Type} [DecidableEq κ] (o : JSObject κ α) (k : κ) (v : α)
    (h : o.get? k = some v) : (k, v) ∈ o := by
  induction o with
  | nil => simp [JSObject.get?] at h
  | cons e o ih =>
    obtain ⟨k0, v0⟩ := e
    by_cases hk : k0 = k
    · subst hk
      simp only [JSObject.get?, if_true, Option.some.injEq] at h
      subst h
      exact List.mem_cons_self _ _
    · simp only [JSObject.get?, hk, if_false] at h
      exact List.mem_cons_of_mem _ (ih h)

theorem firstAppearances_nodup {α : Type} [DecidableEq α] (l : List α) :
    (firstAppearances l).Nodup := by
  have h := foldl_setAdd_nodup l [] List.nodup_nil
  rw [foldl_setAdd_eq] at h
  simpa using h

theorem patientTabletData_keys_nodup (visits : List Visit) :
    (JSObject.insertionKeys (patientTabletData visits)).Nodup := by
  rw [insertionKeys_patientTabletData]
  exact firstAppearances_nodup _

theorem patientTabletData_entry (visits : List Visit) (k : JSString) (p : PatientData)
    (h : (patientTabletData visits).get? k = some p) :
    ∃ v0 g, recordsOf k visits = v0 :: g ∧ p.visits = sortVisits (v0 :: g) ∧
      p.firstVisitDate = ((v0 :: g).map (fun v => v.visitDate)).foldl min v0.visitDate ∧
      p.lastVisitDate = ((v0 :: g).map (fun v => v.visitDate)).foldl max v0.visitDate := by
  cases hg : recordsOf k visits with
  | nil =>
    rw [patientTabletData_get?_nil visits k hg] at h
    exact absurd h (by simp)
  | cons v0 g =>
    obtain ⟨p', hp', _, hf, hl, hvis⟩ := rollup_regNumber visits k v0 g hg
    rw [hp'] at h
    simp only [Option.some.injEq] at h
    subst h
    refine ⟨v0, g, rfl, hvis, ?_, ?_⟩
    · rw [hf, foldl_accumulate_firstVisitDate]; rfl
    · rw [hl, foldl_accumulate_lastVisitDate]; rfl

/-- C28: for every record list and every rollup of `patientTabletData`, the
`visits` list is non-empty, its first element has the rollup's `firstVisitDate`
as `visitDate` and its last element, `visits[visits.length - 1]`, has the
rollup's `lastVisitDate`, the greatest `visitDate` of the patient's records. -/
theorem rollup_first_last (visits : List Visit) (k : JSString) (p : PatientData)
    (h : (k, p) ∈ patientTabletData visits) :
    p.visits ≠ [] ∧
    ∃ first latestVisit, p.visits.head? = some first ∧
      p.visits.get? (p.visits.length - 1) = some latestVisit ∧
      first.visitDate = p.firstVisitDate ∧ latestVisit.visitDate = p.lastVisitDate ∧
      latestVisit ∈ visits ∧ canon latestVisit.regNumber = k ∧
      ∀ v ∈ visits, canon v.regNumber = k → v.visitDate ≤ latestVisit.visitDate := by
  have hget := get?_eq_some_of_mem _ k p (patientTabletData_keys_nodup visits) h
  obtain ⟨v0, g, hg, hvis, hf, hl⟩ := patientTabletData_entry visits k p hget
  have hperm : p.visits.Perm (v0 :: g) := by rw [hvis]; exact List.perm_insertionSort _ _
  have hsorted : p.visits.Sorted (fun a b => a.visitDate ≤ b.visitDate) := by
    rw [hvis]; exact sortVisits_sorted _
  have hne : p.visits ≠ [] := by
    intro hnil
    have := hperm.length_eq
    rw [hnil] at this
    simp at this
  obtain ⟨hmin1, hmin2, hmin3⟩ := foldl_min_le ((v0 :: g).map (fun v => v.visitDate)) v0.visitDate
  obtain ⟨hmax1, hmax2, hmax3⟩ := le_foldl_max ((v0 :: g).map (fun v => v.visitDate)) v0.visitDate
  have hmemdates : ∀ x ∈ p.visits, x.visitDate ∈ (v0 :: g).map (fun v => v.visitDate) :=
    fun x hx => List.mem_map.2 ⟨x, hperm.mem_iff.1 hx, rfl⟩
  have hminmem : p.firstVisitDate ∈ p.visits.map (fun v => v.visitDate) := by
    rw [hf]
    have : List.foldl min v0.visitDate ((v0 :: g).map (fun v => v.visitDate))
        ∈ (v0 :: g).map (fun v => v.visitDate) := by
      rcases hmin3 with e | e
      · rw [e]; exact List.mem_cons_self _ _
      · exact e
    obtain ⟨x, hx, hxd⟩ := List.mem_map.1 this
    exact List.mem_map.2 ⟨x, hperm.mem_iff.2 hx, hxd⟩
  have hmaxmem : p.lastVisitDate ∈ p.visits.map (fun v => v.visitDate) := by
    rw [hl]
    have : List.foldl max v0.visitDate ((v0 :: g).map (fun v => v.visitDate))
        ∈ (v0 :: g).map (fun v => v.visitDate) := by
      rcases hmax3 with e | e
      · rw [e]; exact List.mem_cons_self _ _
      · exact e
    obtain ⟨x, hx, hxd⟩ := List.mem_map.1 this
    exact List.mem_map.2 ⟨x, hperm.mem_iff.2 hx, hxd⟩
  refine ⟨hne, ?_⟩
  cases hpv : p.visits with
  | nil => exact absurd hpv hne
  | cons first rest =>
    rcases List.eq_nil_or_concat (first :: rest) with hnil | ⟨init, last, hconcat⟩
    · exact absurd hnil (List.cons_ne_nil _ _)
    · rw [List.concat_eq_append] at hconcat
      have hlastget : (first :: rest).get? ((first :: rest).length - 1) = some last := by
        rw [hconcat]
        simp
      have hfirst_le : ∀ x ∈ p.visits, first.visitDate ≤ x.visitDate := by
        intro x hx
        rw [hpv] at hx hsorted
        rcases List.mem_cons.1 hx with rfl | hx
        · exact le_refl _
        · exact List.rel_of_sorted_cons hsorted x hx
      have hlast_ge : ∀ x ∈ p.visits, x.visitDate ≤ last.visitDate := by
        intro x hx
        rw [hpv, hconcat] at hx hsorted
        rcases List.mem_append.1 hx with hx | hx
        · exact (List.pairwise_append.1 hsorted).2.2 x hx last (List.mem_singleton_self _)
        · rw [List.mem_singleton.1 hx]
      have hfirstmem : first ∈ p.visits := by rw [hpv]; exact List.mem_cons_self _ _
      have hlastmem : last ∈ p.visits := by
        rw [hpv, hconcat]; exact List.mem_append_right _ (List.mem_singleton_self _)
      have hgroup : ∀ x, x ∈ p.visits ↔ x ∈ visits ∧ canon x.regNumber = k := by
        intro x
        rw [hperm.mem_iff, ← hg, mem_recordsOf]
      refine ⟨first, last, rfl, hlastget, ?_, ?_, ((hgroup last).1 hlastmem).1,
        ((hgroup last).1 hlastmem).2, ?_⟩
      · apply le_antisymm
        · obtain ⟨x, hx, hxd⟩ := List.mem_map.1 hminmem
          rw [← hxd]
          exact hfirst_le x hx
        · rw [hf]
          exact hmin2 _ (hmemdates first hfirstmem)
      · apply le_antisymm
        · rw [hl]
          exact hmax2 _ (hmemdates last hlastmem)
        · obtain ⟨x, hx, hxd⟩ := List.mem_map.1 hmaxmem
          rw [← hxd]
          exact hlast_ge x hx
      · intro v hv hk
        exact hlast_ge v ((hgroup v).2 ⟨hv, hk⟩)

/-- Witness of C28: the rollup of the first patient of the sample records. -/
theorem rollup_first_last_witness :
    ("2026/ABC/0001".toList, sampleRollup) ∈ patientTabletData sampleVisits ∧
    (sampleRollup.visits ≠ [] ∧
      ∃ first latestVisit, sampleRollup.visits.head? = some first ∧
        sampleRollup.visits.get? (sampleRollup.visits.length - 1) = some latestVisit ∧
        first.visitDate = sampleRollup.firstVisitDate ∧
        latestVisit.visitDate = sampleRollup.lastVisitDate ∧
        latestVisit ∈ sampleVisits ∧ canon latestVisit.regNumber = "2026/ABC/0001".toList ∧
        ∀ v ∈ sampleVisits, canon v.regNumber = "2026/ABC/0001".toList →
          v.visitDate ≤ latestVisit.visitDate) :=
  ⟨by decide,
   rollup_first_last sampleVisits "2026/ABC/0001".toList sampleRollup (by decide)⟩

/-! ## Agreement of the patient counts -/

theorem totalVisitsListed_set (o : JSObject JSString PatientData) (k : JSString)
    (p : PatientData) :
    totalVisitsListed (o.set k p) + ((o.get? k).map (fun q => q.visits.length)).getD 0
      = totalVisitsListed o + p.visits.length := by
  induction o with
  | nil => simp [JSObject.set, JSObject.get?, totalVisitsListed]
  | cons e o ih =>
    obtain ⟨k0, v0⟩ := e
    by_cases hk : k0 = k
    · simp only [JSObject.set, JSObject.get?, hk, if_true, totalVisitsListed, List.map_cons,
        List.sum_cons, Option.map_some', Option.getD_some]
      omega
    · simp only [JSObject.set, JSObject.get?, hk, if_false, totalVisitsListed, List.map_cons,
        List.sum_cons]
      unfold totalVisitsListed at ih
      omega

theorem totalVisitsListed_addVisit (pd : JSObject JSString PatientData) (v : Visit) :
    totalVisitsListed (addVisit pd v) = totalVisitsListed pd + 1 := by
  unfold addVisit
  simp only []
  cases hg : pd.get? (canon v.regNumber) with
  | none =>
    have h := totalVisitsListed_set pd (canon v.regNumber) (accumulate (newPatientData v) v)
    rw [accumulate_visits, hg] at h
    have h0 : ((newPatientData v).visits ++ [v]).length = 1 := rfl
    rw [h0] at h
    simpa using h
  | some q =>
    have h := totalVisitsListed_set pd (canon v.regNumber) (accumulate q v)
    rw [accumulate_visits, hg, List.length_append, List.length_singleton] at h
    simp only [Option.map_some', Option.getD_some] at h ⊢
    omega

theorem totalVisitsListed_foldl (vs : List Visit) (pd : JSObject JSString PatientData) :
    totalVisitsListed (vs.foldl addVisit pd) = totalVisitsListed pd + vs.length := by
  induction vs generalizing pd with
  | nil => rfl
  | cons v vs ih =>
    rw [List.foldl_cons, ih, totalVisitsListed_addVisit, List.length_cons]
    omega

theorem totalVisitsListed_patientTabletData (visits : List Visit) :
    totalVisitsListed (patientTabletData visits) = visits.length := by
  have hsort : ∀ o : JSObject JSString PatientData,
      totalVisitsListed
          (o.map (fun kv => (kv.1, { kv.2 with visits := sortVisits kv.2.visits })))
        = totalVisitsListed o := by
    intro o
    unfold totalVisitsListed
    rw [List.map_map]
    congr 1
    apply List.map_congr_left
    intro kv _
    exact List.length_insertionSort _ _
  unfold patientTabletData
  rw [hsort, totalVisitsListed_foldl]
  simp [totalVisitsListed]

theorem objectKeys_length {α : Type} (o : JSObject JSString α) :
    (objectKeys o).length = (JSObject.insertionKeys o).length := by
  unfold objectKeys
  simp only [List.length_append, List.length_insertionSort]
  have h := List.length_eq_length_filter_add (l := JSObject.insertionKeys o)
    (fun k => (arrayIndex? k).isSome)
  have hnot : (JSObject.insertionKeys o).filter (fun k => !(arrayIndex? k).isSome)
      = (JSObject.insertionKeys o).filter (fun k => (arrayIndex? k).isNone) := by
    apply List.filter_congr
    intro k _
    cases arrayIndex? k <;> rfl
  rw [hnot] at h
  omega

/-- C30: for every record list, `uniquePatientCounts.total`,
`lookupStats.uniquePatients` and the number of keys of `patientTabletData` are
equal, and `lookupStats.totalEntries`, the length of the record list, is the
sum of `visits.length` over all rollups. -/
theorem patient_counts_agree (tz : Int) (visits : List Visit) :
    (uniquePatientCounts tz visits).total = (lookupStats visits).uniquePatients ∧
    (lookupStats visits).uniquePatients = (objectKeys (patientTabletData visits)).length ∧
    (objectKeys (patientTabletData visits)).length = (patientTabletData visits).length ∧
    (lookupStats visits).totalEntries = visits.length ∧
    (lookupStats visits).totalEntries
      = ((patientTabletData visits).map (fun kv => kv.2.visits.length)).sum := by
  have h1 : (lookupStats visits).uniquePatients = distinctPatients visits := by
    show ((visits.map (fun v => canon v.regNumber)).foldl setAdd []).length = _
    rw [length_foldl_setAdd]
    rfl
  have h2 : (JSObject.insertionKeys (patientTabletData visits)).length
      = (lookupStats visits).uniquePatients := by
    rw [insertionKeys_patientTabletData]
    show _ = ((visits.map (fun v => canon v.regNumber)).foldl setAdd []).length
    rw [foldl_setAdd_eq]
    simp
  refine ⟨?_, ?_, ?_, rfl, ?_⟩
  · rw [uniquePatientCounts_total_eq, h1]
  · rw [objectKeys_length, h2]
  · rw [objectKeys_length]
    exact List.length_map _ _
  · show visits.length = _
    exact (totalVisitsListed_patientTabletData visits).symm

/-! ## Registration number formatting -/

theorem isUpper_iff (c : Char) : c.isUpper = true ↔ 65 ≤ c.toNat ∧ c.toNat ≤ 90 := by
  unfold Char.isUpper
  simp only [Bool.and_eq_true, decide_eq_true_eq, ge_iff_le]
  constructor
  · rintro ⟨h1, h2⟩
    have h1' : (65 : UInt32) ≤ c.val := h1
    have h2' : c.val ≤ (90 : UInt32) := h2
    rw [UInt32.le_def] at h1' h2'
    exact ⟨by simpa using h1', by simpa using h2'⟩
  · rintro ⟨h1, h2⟩
    constructor
    · show (65 : UInt32) ≤ c.val
      rw [UInt32.le_def]
      simpa using h1
    · show c.val ≤ (90 : UInt32)
      rw [UInt32.le_def]
      simpa using h2

theorem isLower_iff (c : Char) : c.isLower = true ↔ 97 ≤ c.toNat ∧ c.toNat ≤ 122 := by
  unfold Char.isLower
  simp only [Bool.and_eq_true, decide_eq_true_eq, ge_iff_le]
  constructor
  · rintro ⟨h1, h2⟩
    have h1' : (97 : UInt32) ≤ c.val := h1
    have h2' : c.val ≤ (122 : UInt32) := h2
    rw [UInt32.le_def] at h1' h2'
    exact ⟨by simpa using h1', by simpa using h2'⟩
  · rintro ⟨h1, h2⟩
    constructor
    · show (97 : UInt32) ≤ c.val
      rw [UInt32.le_def]
      simpa using h1
    · show c.val ≤ (122 : UInt32)
      rw [UInt32.le_def]
      simpa using h2

theorem isDigit_iff (c : Char) : c.isDigit = true ↔ 48 ≤ c.toNat ∧ c.toNat ≤ 57 := by
  unfold Char.isDigit
  simp only [Bool.and_eq_true, decide_eq_true_eq, ge_iff_le]
  constructor
  · rintro ⟨h1, h2⟩
    have h1' : (48 : UInt32) ≤ c.val := h1
    have h2' : c.val ≤ (57 : UInt32) := h2
    rw [UInt32.le_def] at h1' h2'
    exact ⟨by simpa using h1', by simpa using h2'⟩
  · rintro ⟨h1, h2⟩
    constructor
    · show (48 : UInt32) ≤ c.val
      rw [UInt32.le_def]
      simpa using h1
    · show c.val ≤ (57 : UInt32)
      rw [UInt32.le_def]
      simpa using h2

theorem toUpper_toNat (c : Char) :
    c.toUpper.toNat = if 97 ≤ c.toNat ∧ c.toNat ≤ 122 then c.toNat - 32 else c.toNat := by
  unfold Char.toUpper
  simp only [ge_iff_le]
  split_ifs with h
  · exact toNat_ofNat_small _ (by omega)
  · rfl

theorem isAlpha_toUpper (c : Char) (h : c.isAlpha = true) : c.toUpper.isUpper = true := by
  unfold Char.isAlpha at h
  rw [Bool.or_eq_true, isUpper_iff, isLower_iff] at h
  rw [isUpper_iff, toUpper_toNat]
  split_ifs with h' <;> omega

theorem isAlphanum_iff (c : Char) :
    c.isAlphanum = true ↔ (65 ≤ c.toNat ∧ c.toNat ≤ 90) ∨ (97 ≤ c.toNat ∧ c.toNat ≤ 122) ∨
      (48 ≤ c.toNat ∧ c.toNat ≤ 57) := by
  unfold Char.isAlphanum Char.isAlpha
  rw [Bool.or_eq_true, Bool.or_eq_true, isUpper_iff, isLower_iff, isDigit_iff, or_assoc]

theorem isAlphanum_toUpper (c : Char) (h : c.isAlphanum = true) : c.toUpper.isAlphanum = true := by
  rw [isAlphanum_iff] at h ⊢
  rw [toUpper_toNat]
  split_ifs with h' <;> omega

theorem slash_not_alphanum : ('/' : Char).isAlphanum = false := by decide

theorem isUpper_toUpper (c : Char) (h : c.isUpper = true) : c.toUpper = c := by
  rw [isUpper_iff] at h
  unfold Char.toUpper
  simp only []
  rw [if_neg (by omega)]

theorem isUpper_isAlphanum (c : Char) (h : c.isUpper = true) : c.isAlphanum = true := by
  rw [isUpper_iff] at h
  rw [isAlphanum_iff]
  exact Or.inl h

theorem isDigit_isAlphanum (c : Char) (h : c.isDigit = true) : c.isAlphanum = true := by
  rw [isDigit_iff] at h
  rw [isAlphanum_iff]
  exact Or.inr (Or.inr h)

theorem isAlpha_isAlphanum (c : Char) (h : c.isAlpha = true) : c.isAlphanum = true := by
  unfold Char.isAlphanum
  rw [h]
  rfl

theorem toUpperCase_cons (c : Char) (s : JSString) :
    toUpperCase (c :: s) = c.toUpper :: toUpperCase s := rfl

theorem toUpperCase_nil : toUpperCase [] = [] := rfl

theorem clean_formatCleaned (c : JSString) (hc : ∀ x ∈ c, x.isAlphanum = true) :
    (formatCleaned c).filter Char.isAlphanum
      = c.take 4 ++ toUpperCase ((c.drop 4).take 3) ++ (c.drop 7).take 4 := by
  have hs := slash_not_alphanum
  rcases c with _ | ⟨c1, _ | ⟨c2, _ | ⟨c3, _ | ⟨c4, _ | ⟨c5, _ | ⟨c6, _ | ⟨c7, _ | ⟨c8, _ |
    ⟨c9, _ | ⟨c10, _ | ⟨c11, rest⟩⟩⟩⟩⟩⟩⟩⟩⟩⟩⟩ <;>
  (try simp only [List.mem_cons, forall_eq_or_imp] at hc) <;>
  simp [formatCleaned, toUpperCase_cons, toUpperCase_nil, hs, hc, isAlphanum_toUpper]

theorem formatCleaned_normal (c : JSString) :
    formatCleaned (c.take 4 ++ toUpperCase ((c.drop 4).take 3) ++ (c.drop 7).take 4)
      = formatCleaned c := by
  rcases c with _ | ⟨c1, _ | ⟨c2, _ | ⟨c3, _ | ⟨c4, _ | ⟨c5, _ | ⟨c6, _ | ⟨c7, _ | ⟨c8, _ |
    ⟨c9, _ | ⟨c10, _ | ⟨c11, rest⟩⟩⟩⟩⟩⟩⟩⟩⟩⟩⟩ <;>
  simp [formatCleaned, toUpperCase_cons, toUpperCase_nil, toUpper_toUpper]

theorem formatCleaned_eleven (y1 y2 y3 y4 a1 a2 a3 n1 n2 n3 n4 : Char) (rest : JSString) :
    formatCleaned (y1 :: y2 :: y3 :: y4 :: a1 :: a2 :: a3 :: n1 :: n2 :: n3 :: n4 :: rest)
      = [y1, y2, y3, y4, '/', a1.toUpper, a2.toUpper, a3.toUpper, '/', n1, n2, n3, n4] := by
  simp [formatCleaned, toUpperCase_cons, toUpperCase_nil]

/-- C23: for every input whose letters and digits, read in order, begin with
4 digits, 3 ASCII letters and 4 digits, `formatRegNumber` returns those digits,
a slash, the letters uppercased, a slash and the last digits, a string that
passes the format check `^\d{4}/[A-Z]{3}/\d{4}$` of `handleSubmit`. -/
theorem formatRegNumber_matches (value : JSString)
    (y1 y2 y3 y4 a1 a2 a3 n1 n2 n3 n4 : Char) (rest : JSString)
    (hclean : value.filter Char.isAlphanum
      = y1 :: y2 :: y3 :: y4 :: a1 :: a2 :: a3 :: n1 :: n2 :: n3 :: n4 :: rest)
    (hy : y1.isDigit = true ∧ y2.isDigit = true ∧ y3.isDigit = true ∧ y4.isDigit = true)
    (ha : a1.isAlpha = true ∧ a2.isAlpha = true ∧ a3.isAlpha = true)
    (hn : n1.isDigit = true ∧ n2.isDigit = true ∧ n3.isDigit = true ∧ n4.isDigit = true) :
    formatRegNumber value
      = [y1, y2, y3, y4, '/', a1.toUpper, a2.toUpper, a3.toUpper, '/', n1, n2, n3, n4] ∧
    regNumberPattern (formatRegNumber value) = true := by
  have hf : formatRegNumber value
      = [y1, y2, y3, y4, '/', a1.toUpper, a2.toUpper, a3.toUpper, '/', n1, n2, n3, n4] := by
    unfold formatRegNumber
    rw [hclean, formatCleaned_eleven]
  refine ⟨hf, ?_⟩
  rw [hf]
  simp [regNumberPattern, hy.1, hy.2.1, hy.2.2.1, hy.2.2.2, hn.1, hn.2.1, hn.2.2.1, hn.2.2.2,
    isAlpha_toUpper a1 ha.1, isAlpha_toUpper a2 ha.2.1, isAlpha_toUpper a3 ha.2.2]

/-- Witness of C23: the input "2026-abc 0001x". -/
theorem formatRegNumber_matches_witness :
    ("2026-abc 0001x".toList.filter Char.isAlphanum
      = '2' :: '0' :: '2' :: '6' :: 'a' :: 'b' :: 'c' :: '0' :: '0' :: '0' :: '1' :: ['x']) ∧
    (formatRegNumber "2026-abc 0001x".toList
      = ['2', '0', '2', '6', '/', 'a'.toUpper, 'b'.toUpper, 'c'.toUpper, '/',
         '0', '0', '0', '1'] ∧
      regNumberPattern (formatRegNumber "2026-abc 0001x".toList) = true) :=
  ⟨by decide,
   formatRegNumber_matches "2026-abc 0001x".toList '2' '0' '2' '6' 'a' 'b' 'c' '0' '0' '0' '1'
     ['x'] (by decide) (by decide) (by decide) (by decide)⟩

/-- C25, the code at the failing input: for the input "ab-cd" the cleaning keeps
the four letters and `formatRegNumber` returns them as the first segment, which
is not made of digits. -/
theorem formatRegNumber_year_not_digits :
    formatRegNumber "ab-cd".toList = "abcd".toList ∧
    firstSegment (formatRegNumber "ab-cd".toList) = "abcd".toList ∧
    ¬ ∀ c ∈ firstSegment (formatRegNumber "ab-cd".toList), c.isDigit = true := by
  refine ⟨by decide, by decide, by decide⟩

/-- C26: `formatRegNumber` is idempotent, and a string that matches
`^\d{4}/[A-Z]{3}/\d{4}$` is returned unchanged. -/
theorem formatRegNumber_idempotent (s : JSString) :
    formatRegNumber (formatRegNumber s) = formatRegNumber s ∧
    (regNumberPattern s = false ∨ formatRegNumber s = s) := by
  constructor
  · unfold formatRegNumber
    rw [clean_formatCleaned _ (fun x hx => (List.mem_filter.1 hx).2), formatCleaned_normal]
  · cases hp : regNumberPattern s
    · exact Or.inl rfl
    · right
      unfold regNumberPattern at hp
      split at hp
      · rename_i y1 y2 y3 y4 s1 a1 a2 a3 s2 n1 n2 n3 n4
        simp only [Bool.and_eq_true, beq_iff_eq] at hp
        obtain ⟨⟨⟨⟨⟨⟨⟨⟨⟨⟨⟨⟨h1, h2⟩, h3⟩, h4⟩, h5⟩, h6⟩, h7⟩, h8⟩, h9⟩, h10⟩, h11⟩, h12⟩, h13⟩ := hp
        subst h5
        subst h9
        unfold formatRegNumber
        have hfilter : List.filter Char.isAlphanum
            [y1, y2, y3, y4, '/', a1, a2, a3, '/', n1, n2, n3, n4]
            = [y1, y2, y3, y4, a1, a2, a3, n1, n2, n3, n4] := by
          simp [slash_not_alphanum, isDigit_isAlphanum, isUpper_isAlphanum, h1, h2, h3, h4, h6,
            h7, h8, h10, h11, h12, h13]
        rw [hfilter, formatCleaned_eleven, isUpper_toUpper a1 h6, isUpper_toUpper a2 h7,
          isUpper_toUpper a3 h8]
      · exact absurd hp (by simp)

/-! ## The last-four alternative of the suggestion filter -/

/-- C27: for every record list and every query, `getRegNumberSuggestions` over
the rollups of the list returns the same sequence as the matcher that keeps
only the keys containing the uppercased, trimmed query as a substring: on the
uppercased rollup keys the test on the last 4 characters admits no key that
the substring test rejects. -/
theorem suggestions_eq_substring (visits : List Visit) (query : JSString) :
    getRegNumberSuggestions (patientTabletData visits) query
      = substringSuggestions (patientTabletData visits) query ∧
    ∀ k ∈ objectKeys (patientTabletData visits),
      includes (sliceLast4 k) (trim (toUpperCase query)) = false ∨
      includes (toUpperCase k) (trim (toUpperCase query)) = true := by
  have hkey : ∀ k ∈ objectKeys (patientTabletData visits),
      suggestionMatch (trim (toUpperCase query)) k
        = decide (trim (toUpperCase query) <:+: k) ∧
      (includes (sliceLast4 k) (trim (toUpperCase query)) = false ∨
        includes (toUpperCase k) (trim (toUpperCase query)) = true) := by
    intro k hk
    have hcanon : toUpperCase k = k :=
      patientTabletData_keys_canonical visits k ((mem_objectKeys _ k).1 hk)
    have hlast : trim (toUpperCase query) <:+: k.drop (k.length - 4) →
        trim (toUpperCase query) <:+: k :=
      fun h => h.trans (List.drop_suffix _ k).isInfix
    constructor
    · have hiff := suggestionMatch_iff (trim (toUpperCase query)) k hcanon
      unfold matchRule at hiff
      by_cases hm : trim (toUpperCase query) <:+: k
      · rw [hiff.2 (Or.inl hm)]; simp [hm]
      · have hf : suggestionMatch (trim (toUpperCase query)) k = false := by
          cases hs : suggestionMatch (trim (toUpperCase query)) k
          · rfl
          · rcases hiff.1 hs with h | h
            · exact absurd h hm
            · exact absurd (hlast h) hm
        rw [hf]; simp [hm]
    · cases hl : includes (sliceLast4 k) (trim (toUpperCase query))
      · exact Or.inl rfl
      · right
        rw [hcanon, includes_iff]
        apply hlast
        have := (includes_iff _ _).1 hl
        exact this
  constructor
  · unfold getRegNumberSuggestions substringSuggestions
    split_ifs with hq
    · rfl
    · simp only []
      congr 1
      apply List.filter_congr
      intro k hk
      exact (hkey k hk).1
  · intro k hk
    exact (hkey k hk).2

/-! ## Delete All, and the month card against the month view -/

theorem deleteAllVisits_visits (s : Store) (patient : PatientData) (gw : Gateway)
    (init : List Visit) (last : Visit) (h : patient.visits = init ++ [last]) :
    (deleteAllVisits s patient gw).visits = s.visits.filter (fun v => v.id ≠ last.id) := by
  unfold deleteAllVisits
  rw [h, List.foldl_append]
  rfl

/-- C24, the code at the failing input: `Delete All` on the first patient of the
sample records, whose rollup lists the visits with ids 1 and 2, without gateway
URL. Each `deleteVisit` filters the record list of the same render, the last
one stores that list without the visit 2 only, and the visit 1 of the patient
is still in the record list. -/
theorem delete_all_keeps_a_visit :
    sampleRollup.visits.map (fun v => v.id) = [1, 2] ∧
    (deleteAllVisits offlineSampleStore sampleRollup unreachable).visits.map (fun v => v.id)
      = [1, 3] ∧
    (∃ v ∈ (deleteAllVisits offlineSampleStore sampleRollup unreachable).visits,
      canon v.regNumber = "2026/ABC/0001".toList) := by
  refine ⟨by decide, by decide, by decide⟩

/-- C29, the code at the failing input: with one pending record whose next visit
is in February 2027 and the displayed year 2026, the month card of February
counts 1 patient while the month view it opens lists no record. -/
theorem month_card_counts_other_years :
    getUniquePatientsForMonth 19800000 nextYearVisits 1 = 1 ∧
    (getMonthDatesDetailed 19800000 2026 nextYearVisits 1).length = 28 ∧
    monthViewPatients 19800000 2026 nextYearVisits 1 = [] ∧
    distinctPatients (monthViewPatients 19800000 2026 nextYearVisits 1) = 0 := by
  refine ⟨by decide, by decide, by decide, by decide⟩

end PTVisitTracker
